import Mathlib

/-!
Verification development for the social-graph builder and round-stepped
simulation engine of the matrix backend (backend/network_builder.py).
Each Python function used by the verified claims is embedded as an
executable Lean definition; theorems about those definitions follow.
-/

/-- Python idiom: deduplicate a list preserving the first occurrence of
each element (the `seen` set + append loop used throughout the source). -/
def dedupFirstSeenAux : List String → List String → List String
  | [], acc => acc
  | x :: xs, acc =>
    if x ∈ acc then dedupFirstSeenAux xs acc else dedupFirstSeenAux xs (acc ++ [x])

/-- Deduplicate preserving first-seen order. -/
def dedupFirstSeen (l : List String) : List String := dedupFirstSeenAux l []


/-- Python `', '.join(...)`. -/
def joinComma (l : List String) : String := String.intercalate ", " l

/-- Python str.strip() at the character level (ASCII whitespace, the
same class Lean's Char.isWhitespace recognizes). -/
def trimChars (cs : List Char) : List Char :=
  ((cs.dropWhile Char.isWhitespace).reverse.dropWhile Char.isWhitespace).reverse

/-- Python str.strip() on a String. -/
def pyStrip (s : String) : String := String.mk (trimChars s.data)

/-- Splitting a character list at every delimiter character (re.split
keeps empty pieces). -/
def splitCharsAux (p : Char → Bool) : List Char → List Char → List (List Char)
  | [], cur => [cur.reverse]
  | c :: rest, cur =>
    if p c then cur.reverse :: splitCharsAux p rest []
    else splitCharsAux p rest (c :: cur)

/-- re.split of a pattern of single delimiter characters. -/
def pySplit (p : Char → Bool) (s : String) : List String :=
  (splitCharsAux p s.data []).map String.mk

/-- Lexicographic strict order on character lists (Python string <). -/
def charListLt : List Char → List Char → Bool
  | [], [] => false
  | [], _ :: _ => true
  | _ :: _, [] => false
  | a :: as, b :: bs => a < b || (a = b && charListLt as bs)

/-- Python string `<` as a computation. -/
def strLtB (a b : String) : Bool := charListLt a.data b.data

/-- Python string `<=` as a computation. -/
def strLeB (a b : String) : Bool := charListLt a.data b.data || a.data == b.data

/-- Python string `<=` as a decidable relation that evaluates. -/
def pyLe (a b : String) : Prop := strLeB a b = true

instance : DecidableRel pyLe := fun a b => inferInstanceAs (Decidable (_ = true))

/-- Python `sorted` on a list of strings (lexicographic order). -/
def sortedStrings (l : List String) : List String := l.insertionSort pyLe

/-- Lookup in a Python dict represented as an association list, with a
default for a missing key (`record.get(field, default)`). -/
def dictGetD (m : List (String × String)) (k d : String) : String :=
  match m.find? (fun p => p.1 = k) with
  | some p => p.2
  | none => d

/-- Python `key in dict` for an association list. -/
def dictHasKey (m : List (String × String)) (k : String) : Bool :=
  (m.find? (fun p => p.1 = k)).isSome

/-- Python `dict[key] = value`: overwrite in place if the key exists
(keeping its position), otherwise append at the end. -/
def dictInsert (m : List (String × String)) (k v : String) : List (String × String) :=
  if dictHasKey m k then m.map (fun p => if p.1 = k then (p.1, v) else p)
  else m ++ [(k, v)]

/-- REQUIRED_COLUMNS from network_builder.py (a set in the source; the
only consumer sorts its selection before display). -/
def REQUIRED_COLUMNS : List String := ["agent_id", "connections", "system_prompt"]

/-- One CSV data record as produced by csv.DictReader: raw field name to
raw cell value. -/
abbrev CsvRecord := List (String × String)

/-- The CSV input at the abstraction level of csv.DictReader: the raw
header field names plus the sequence of data records. -/
structure CsvData where
  fieldnames : List String
  records : List CsvRecord

/-- _normalize_record: trim every cell, keyed by the trimmed fieldnames
(missing keys yield the empty string). -/
def normalize_record (record : CsvRecord) (fieldnames : List String) : CsvRecord :=
  fieldnames.map (fun field => (field, pyStrip (dictGetD record field "")))

/-- `if not any(value for value in normalized.values())`. -/
def isBlankRow (fieldnames : List String) (record : CsvRecord) : Bool :=
  (normalize_record record fieldnames).all (fun p => p.2 = "")

/-- The trimmed non-empty header names as _parse_csv_rows computes them. -/
def headerFieldnames (csv : CsvData) : List String :=
  (csv.fieldnames.filter (fun n => n ≠ "" ∧ pyStrip n ≠ "")).map (fun n => pyStrip n)

/-- The loop body of _parse_csv_rows over the records: skip blank rows,
fail on a non-blank row without agent_id; `idx` is the enumerate index
(starting at 2 in the source). -/
def parseCsvRowsLoop (fieldnames : List String) :
    List CsvRecord → Nat → Except String (List CsvRecord)
  | [], _ => .ok []
  | record :: rest, idx =>
    let normalized := normalize_record record fieldnames
    if isBlankRow fieldnames record then
      parseCsvRowsLoop fieldnames rest (idx + 1)
    else if dictGetD normalized "agent_id" "" = "" then
      .error ("Row " ++ toString idx ++ " is missing agent_id.")
    else do
      let tail ← parseCsvRowsLoop fieldnames rest (idx + 1)
      return normalized :: tail

/-- _parse_csv_rows from network_builder.py. -/
def parse_csv_rows (csv : CsvData) :
    Except String (List String × List CsvRecord) := do
  let fieldnames := headerFieldnames csv
  if fieldnames = [] then throw "CSV is missing a header row."
  let missing_columns := REQUIRED_COLUMNS.filter (fun c => c ∉ fieldnames)
  if missing_columns ≠ [] then
    throw ("CSV is missing required column(s): " ++ joinComma (sortedStrings missing_columns) ++ ".")
  let rows ← parseCsvRowsLoop fieldnames csv.records 2
  if rows = [] then throw "CSV has no data rows."
  return (fieldnames, rows)

/-- CONNECTION_SPLIT_PATTERN = re.compile(r"[|;,]"). -/
def isConnectionDelim (c : Char) : Bool := c = '|' || c = ';' || c = ','

/-- _parse_connections: split on any of the delimiters, trim tokens,
drop empties, deduplicate preserving first-seen order. -/
def parse_connections (raw_connections : String) : List String :=
  let raw := pyStrip raw_connections
  if raw = "" then []
  else dedupFirstSeen (((pySplit isConnectionDelim raw).map pyStrip).filter (fun s => s ≠ ""))

/-- GraphNode Pydantic model. -/
structure GraphNode where
  id : String
  metadata : CsvRecord
  connections : List String
  declared_connections : List String
  deriving DecidableEq, Repr

/-- GraphEdge Pydantic model. -/
structure GraphEdge where
  source : String
  target : String
  deriving DecidableEq, Repr

/-- GraphStats Pydantic model. -/
structure GraphStats where
  node_count : Nat
  edge_count : Nat
  isolated_node_count : Nat
  unresolved_connection_count : Nat
  connected_component_count : Nat
  deriving DecidableEq, Repr

/-- GraphBuildResponse Pydantic model. -/
structure GraphBuildResponse where
  directed : Bool
  nodes : List GraphNode
  edges : List GraphEdge
  stats : GraphStats
  warnings : List String
  deriving DecidableEq, Repr

/-- The duplicate-detection pass of build_social_graph: returns the rows
keyed by agent_id (first occurrence wins), the insertion-ordered ids, and
the list of duplicate occurrences. -/
def dedupeRowsLoop :
    List CsvRecord → List (String × CsvRecord) → List String → List String →
    List (String × CsvRecord) × List String × List String
  | [], byId, ordered, dups => (byId, ordered, dups)
  | row :: rest, byId, ordered, dups =>
    let agent_id := dictGetD row "agent_id" ""
    if (byId.find? (fun p => p.1 = agent_id)).isSome then
      dedupeRowsLoop rest byId ordered (dups ++ [agent_id])
    else
      dedupeRowsLoop rest (byId ++ [(agent_id, row)]) (ordered ++ [agent_id]) dups

/-- Adjacency is a set-valued dict in the source; embedded as a function
to first-insertion-ordered duplicate-free lists. -/
def adjInsert (adj : String → List String) (a b : String) : String → List String :=
  fun x => if x = a then (if b ∈ adj a then adj a else adj a ++ [b]) else adj x

/-- State threaded through the connection-processing loop of
build_social_graph. -/
structure BuildSt where
  adj : String → List String
  edges : List (String × String)
  unresolved : Nat
  warnings : List String

/-- Python `sorted((source, target))` for two strings. -/
def sortPair (a b : String) : String × String :=
  if strLeB a b = true then (a, b) else (b, a)

/-- The body of the inner `for target_agent_id in declared_connections`
loop of build_social_graph. -/
def connStep (directed : Bool) (ids : List String) (source : String)
    (st : BuildSt) (target : String) : BuildSt :=
  if target = source then
    { st with warnings := st.warnings ++ ["Self-connection ignored for agent_id '" ++ source ++ "'."] }
  else if target ∉ ids then
    { st with
      unresolved := st.unresolved + 1
      warnings := st.warnings ++ ["Unresolved connection ignored: '" ++ source ++ "' -> '" ++ target ++ "'."] }
  else if directed then
    if (source, target) ∈ st.edges then st
    else { st with
           edges := st.edges ++ [(source, target)]
           adj := adjInsert st.adj source target }
  else
    if sortPair source target ∈ st.edges then st
    else { st with
           edges := st.edges ++ [sortPair source target]
           adj := adjInsert (adjInsert st.adj source target) target source }

/-- The `for source_agent_id in ordered_agent_ids` edge-building loop. -/
def buildEdges (directed : Bool) (ids : List String)
    (declMap : String → List String) (st0 : BuildSt) : BuildSt :=
  ids.foldl (fun st src => (declMap src).foldl (connStep directed ids src) st) st0

/-- Python `sorted(edge_set)`: lexicographic order on string pairs. -/
def edgeLeB (a b : String × String) : Bool :=
  strLtB a.1 b.1 || (a.1 == b.1 && strLeB a.2 b.2)

/-- The pair order as a decidable relation that evaluates. -/
def edgeLe (a b : String × String) : Prop := edgeLeB a b = true

instance : DecidableRel edgeLe := fun a b => inferInstanceAs (Decidable (_ = true))

/-- undirected_view from build_social_graph: both endpoints of every edge
become neighbors of the other, regardless of `directed`. -/
def undirected_view (edges : List (String × String)) (a : String) : List String :=
  dedupFirstSeen
    (((edges.filter (fun e => e.1 = a)).map Prod.snd) ++
     ((edges.filter (fun e => e.2 = a)).map Prod.fst))

/-- The inner `while stack` loop of the component count: iterative DFS
with explicit fuel (the Python loop terminates; fuel is sized by
dfsFuel below, which the proofs show is sufficient). -/
def dfsLoop (uN : String → List String) : Nat → List String → List String → List String
  | 0, _, visited => visited
  | _ + 1, [], visited => visited
  | fuel + 1, current :: rest, visited =>
    if current ∈ visited then dfsLoop uN fuel rest visited
    else dfsLoop uN fuel ((uN current).filter (fun n => n ∉ visited) ++ rest) (current :: visited)

/-- Fuel bound for dfsLoop: the stack size plus, for every unvisited
vertex of the universe, one pop plus its degree. -/
def dfsFuel (univ : List String) (uN : String → List String)
    (stack visited : List String) : Nat :=
  stack.length +
    ((univ.filter (fun v => v ∉ visited)).map (fun v => 1 + (uN v).length)).sum

/-- One DFS sweep from a start vertex, as launched by the outer loop. -/
def runDfs (univ : List String) (uN : String → List String)
    (a : String) (visited : List String) : List String :=
  dfsLoop uN (dfsFuel univ uN [a] visited) [a] visited

/-- The `for agent_id in ordered_agent_ids` component-counting loop. -/
def componentsCount (univ : List String) (uN : String → List String) : Nat :=
  (univ.foldl
    (fun (acc : Nat × List String) a =>
      if a ∈ acc.2 then acc else (acc.1 + 1, runDfs univ uN a acc.2))
    (0, [])).1

/-- The insertion-ordered unique agent ids of the parsed rows. -/
def orderedIdsOf (rows : List CsvRecord) : List String :=
  (dedupeRowsLoop rows [] [] []).2.1

/-- `rows_by_agent_id[agent_id]` (always present for an ordered id). -/
def rowOfMap (rows : List CsvRecord) (aid : String) : CsvRecord :=
  match (dedupeRowsLoop rows [] [] []).1.find? (fun p => p.1 = aid) with
  | some p => p.2
  | none => []

/-- declared_connections_map of build_social_graph. -/
def declMapOf (rows : List CsvRecord) (aid : String) : List String :=
  parse_connections (dictGetD (rowOfMap rows aid) "connections" "")

/-- The connection-processing state after both loops of
build_social_graph. -/
def buildStOf (directed : Bool) (rows : List CsvRecord) : BuildSt :=
  buildEdges directed (orderedIdsOf rows) (declMapOf rows)
    { adj := fun _ => [], edges := [], unresolved := 0, warnings := [] }

/-- The successful tail of build_social_graph: edge sorting, component
count, node assembly and stats over the duplicate-free rows. -/
def graphFromRows (directed : Bool) (rows : List CsvRecord) : GraphBuildResponse :=
  let ordered_agent_ids := orderedIdsOf rows
  let st := buildStOf directed rows
  let edge_list := (st.edges.insertionSort edgeLe).map (fun e => GraphEdge.mk e.1 e.2)
  let connected_components := componentsCount ordered_agent_ids (undirected_view st.edges)
  let warnings :=
    if connected_components > 1 then
      st.warnings ++ ["Graph is disconnected: found " ++ toString connected_components ++ " connected components."]
    else st.warnings
  let node_list := ordered_agent_ids.map (fun aid =>
    GraphNode.mk aid (rowOfMap rows aid) (sortedStrings ((buildStOf directed rows).adj aid))
      (declMapOf rows aid))
  let isolated_count := (node_list.filter (fun n => n.connections = [])).length
  { directed := directed
    nodes := node_list
    edges := edge_list
    stats := {
      node_count := node_list.length
      edge_count := edge_list.length
      isolated_node_count := isolated_count
      unresolved_connection_count := st.unresolved
      connected_component_count := connected_components }
    warnings := warnings }

/-- build_social_graph from network_builder.py. -/
def build_social_graph (csv : CsvData) (directed : Bool) :
    Except String GraphBuildResponse := do
  let (_fieldnames, rows) ← parse_csv_rows csv
  let duplicate_ids := (dedupeRowsLoop rows [] [] []).2.2
  if duplicate_ids ≠ [] then
    throw ("Duplicate agent_id values detected: " ++ joinComma (sortedStrings (dedupFirstSeen duplicate_ids)) ++ ".")
  return graphFromRows directed rows

/-! ## Round-stepped simulation engine (_run_simulation_task and friends) -/

/-- SIMULATION_DAYS from network_builder.py. -/
def SIMULATION_DAYS : Nat := 5

/-- SIMULATION_NEWS_SPARK from network_builder.py. -/
def SIMULATION_NEWS_SPARK : String :=
  "BREAKING: A leaked Texas legislative proposal suggests a 20% tax credit for small businesses, offset by a 5% tax hike on luxury properties over $2M."

/-- One node dict consumed by the simulation (id, metadata,
connections; a node without a connections key reads as []). -/
structure SimNode where
  id : String
  metadata : List (String × String)
  connections : List String
  deriving DecidableEq, Repr

/-- The external generation service as a black box: for each (round,
agent) the call either yields the raw response content or raises, whose
text is the exception string. Within one run each agent is called
exactly once per round, so a (round, agent)-indexed family captures
every possible behavior of the endpoint. -/
abbrev SimOracle := Nat → String → Except String String

/-- Text after the first occurrence of `m` (Python
`s.split(m, 1)[1]` when m occurs), none when `m` does not occur. -/
def afterFirstOcc (m : List Char) : List Char → Option (List Char)
  | [] => none
  | c :: rest =>
    if m.isPrefixOf (c :: rest) then some ((c :: rest).drop m.length)
    else afterFirstOcc m rest

/-- The reasoning sentinel of the generation service. -/
def thinkMarker : List Char := "</think>".data

/-- The marker branch of _call_sim_agent:
`if "</think>" in content: content = content.split("</think>", 1)[1].strip()`. -/
def stripThinkBlock (cs : List Char) : List Char :=
  match afterFirstOcc thinkMarker cs with
  | some post => trimChars post
  | none => cs

/-- Response post-processing of _call_sim_agent: marker stripping
followed by the final `content.strip()`. -/
def postProcessContent (content : String) : String :=
  String.mk (trimChars (stripThinkBlock content.data))

/-- _call_sim_agent: a successful response is post-processed; any
exception (including a timeout) degrades to the placeholder string. -/
def call_sim_agent (agent_id : String) (raw : Except String String) : String :=
  match raw with
  | .ok content => postProcessContent content
  | .error exc => "[" ++ agent_id ++ " unavailable: " ++ exc ++ "]"

/-- Python dict last-wins semantics of `{n["id"]: n for n in nodes}`. -/
def lookupNodeLast (nodes : List SimNode) (nid : String) : Option SimNode :=
  nodes.reverse.find? (fun n => n.id = nid)

/-- `agent_map[nid]["metadata"].get("full_name", nid)`. -/
def fullNameOf (nodes : List SimNode) (nid : String) : String :=
  match lookupNodeLast nodes nid with
  | some n => dictGetD n.metadata "full_name" nid
  | none => nid

/-- The three per-agent values the day loop computes before the call. -/
structure AgentCallInput where
  incoming : List String
  neighborNames : List String
  talkedTo : List String
  deriving DecidableEq, Repr

/-- Lines 1390-1405 of network_builder.py: the incoming messages,
neighbor names, and talked_to list for one agent in one round. -/
def agentDayInputs (nodes : List SimNode) (day : Nat)
    (currentMessages : List (String × String)) (agent : SimNode) : AgentCallInput :=
  if day = 0 then
    { incoming := [SIMULATION_NEWS_SPARK], neighborNames := [], talkedTo := [] }
  else
    let active0 := agent.connections.filter (fun nid => dictHasKey currentMessages nid)
    let active :=
      if active0 = [] then
        if dictHasKey currentMessages agent.id then [agent.id] else []
      else active0
    { incoming :=
        if active = [] then [SIMULATION_NEWS_SPARK]
        else active.map (fun nid => dictGetD currentMessages nid "")
      neighborNames := active.map (fullNameOf nodes)
      talkedTo := (active.filter (fun nid => nid ≠ agent.id)).map (fullNameOf nodes) }

/-- One per-round day entry appended to an agent's history. -/
structure DayEntry where
  day : Nat
  content : String
  talked_to : List String
  deriving DecidableEq, Repr

/-- `results[agent_id].append(entry)` (every key is pre-seeded). -/
def resultsAppend (res : List (String × List DayEntry)) (k : String) (e : DayEntry) :
    List (String × List DayEntry) :=
  res.map (fun p => if p.1 = k then (p.1, p.2 ++ [e]) else p)

/-- Per-agent step of one round: issue the call and record the response
into next_messages and the agent's history. -/
def runDayStep (nodes : List SimNode) (oracle : SimOracle) (day : Nat)
    (currentMessages : List (String × String))
    (acc : List (String × String) × List (String × List DayEntry)) (agent_id : String) :
    List (String × String) × List (String × List DayEntry) :=
  match lookupNodeLast nodes agent_id with
  | none => acc
  | some agent =>
    let inp := agentDayInputs nodes day currentMessages agent
    let response := call_sim_agent agent_id (oracle day agent_id)
    (dictInsert acc.1 agent_id response,
     resultsAppend acc.2 agent_id { day := day, content := response, talked_to := inp.talkedTo })

/-- One round of the simulation loop: fan-out over all agents against
the frozen previous-round snapshot, then join (the gather joins in task
order, which is the all_ids order). -/
def runDay (nodes : List SimNode) (oracle : SimOracle) (day : Nat)
    (currentMessages : List (String × String)) (results : List (String × List DayEntry)) :
    List (String × String) × List (String × List DayEntry) :=
  (nodes.map (fun n => n.id)).foldl (runDayStep nodes oracle day currentMessages) ([], results)

/-- `results = {aid: [] for aid in all_ids}`. -/
def simInitResults (allIds : List String) : List (String × List DayEntry) :=
  (dedupFirstSeen allIds).map (fun aid => (aid, ([] : List DayEntry)))

/-- The (current_messages, results) state after the first k rounds. -/
def simStateAfter (nodes : List SimNode) (oracle : SimOracle) (k : Nat) :
    List (String × String) × List (String × List DayEntry) :=
  (List.range k).foldl (fun acc day => runDay nodes oracle day acc.1 acc.2)
    ([], simInitResults (nodes.map (fun n => n.id)))

/-- The per-agent compiled results exposed once state is done. -/
structure AgentResult where
  agent_id : String
  full_name : String
  days : List DayEntry
  initial : String
  final : String
  deriving DecidableEq, Repr

/-- The `_sim_results` compilation loop at the end of the run. -/
def compileResults (nodes : List SimNode) (results : List (String × List DayEntry)) :
    List (String × AgentResult) :=
  (dedupFirstSeen (nodes.map (fun n => n.id))).map (fun aid =>
    let days_data := match results.find? (fun p => p.1 = aid) with
      | some p => p.2
      | none => []
    let meta := match lookupNodeLast nodes aid with
      | some n => n.metadata
      | none => []
    (aid,
     { agent_id := aid
       full_name := dictGetD meta "full_name" aid
       days := days_data
       initial := match days_data.head? with | some e => e.content | none => ""
       final := match days_data.getLast? with | some e => e.content | none => "" }))

/-- The `_sim_status` dict. -/
structure SimStatus where
  state : String
  progress : Nat
  total : Nat
  day : Nat
  error : String
  deriving DecidableEq, Repr

/-- _run_simulation_task: the full run over the supplied graph nodes.
An empty node list falls through to the missing-graph.json error arm of
the source; with nodes present the loop runs SIMULATION_DAYS rounds and
flips state to done. -/
def run_simulation_task (nodes : List SimNode) (oracle : SimOracle) :
    SimStatus × List (String × AgentResult) :=
  if nodes = [] then
    ({ state := "error", progress := 0, total := 0, day := 0,
       error := "No graph data and graph.json not found" }, [])
  else
    let results := (simStateAfter nodes oracle SIMULATION_DAYS).2
    let total_steps := SIMULATION_DAYS * nodes.length
    ({ state := "done", progress := total_steps, total := total_steps,
       day := SIMULATION_DAYS, error := "" },
     compileResults nodes results)

/-- Outcome of POST /api/simulation/run. -/
inductive RunOutcome where
  | alreadyRunning
  | started
  deriving DecidableEq, Repr

/-- The process-wide simulation state the endpoint guards. -/
structure ServerSimState where
  status : SimStatus
  results : List (String × AgentResult)
  deriving DecidableEq, Repr

/-- simulation_run endpoint: guard, reset, queue. The Bool records
whether a background task was queued. -/
def simulation_run (st : ServerSimState) : RunOutcome × ServerSimState × Bool :=
  if st.status.state = "running" then (RunOutcome.alreadyRunning, st, false)
  else
    (RunOutcome.started,
     { status := { state := "running", progress := 0, total := 0, day := 0, error := "" },
       results := [] },
     true)

/-! ## Specification-side definitions (stated from the spec's words, for
the claims that compare code against them) -/

/-- The non-blank data rows of a CSV. -/
def nonBlankRows (csv : CsvData) : List CsvRecord :=
  csv.records.filter (fun r => !(isBlankRow (headerFieldnames csv) r))

/-- The agent_id cells of the non-blank data rows, in row order. -/
def rowAgentIds (csv : CsvData) : List String :=
  (nonBlankRows csv).map
    (fun r => dictGetD (normalize_record r (headerFieldnames csv)) "agent_id" "")

/-- The occurrences beyond the first of each value, in scan order
(characterizes the duplicate_ids list of build_social_graph). -/
def dupOccurrences (seen : List String) : List String → List String
  | [] => []
  | x :: xs =>
    if x ∈ seen then x :: dupOccurrences seen xs else dupOccurrences (seen ++ [x]) xs

/-- The id list of a built graph's nodes. -/
def nodeIds (g : GraphBuildResponse) : List String := g.nodes.map (fun n => n.id)

/-- The edge list of a built graph as raw string pairs. -/
def edgePairs (g : GraphBuildResponse) : List (String × String) :=
  g.edges.map (fun e => (e.source, e.target))

/-- `b` is declared as a connection in `a`'s row of the built graph. -/
def declaredRel (g : GraphBuildResponse) (a b : String) : Prop :=
  ∃ n ∈ g.nodes, n.id = a ∧ b ∈ n.declared_connections

/-- Two vertices are adjacent in the undirected view of an edge set. -/
def edgeAdjacent (edges : List (String × String)) (a b : String) : Prop :=
  (a, b) ∈ edges ∨ (b, a) ∈ edges

/-- Connectivity: reachability over edges with direction ignored. -/
def connectedIn (edges : List (String × String)) (a b : String) : Prop :=
  Relation.ReflTransGen (edgeAdjacent edges) a b

/-- `n` is the number of connected components of the undirected view of
`edges` over the vertex list `univ`: some duplicate-free system of
representatives, one per component, has length `n`. -/
def isComponentCountOf (univ : List String) (edges : List (String × String)) (n : Nat) : Prop :=
  ∃ reps : List String,
    reps.Nodup ∧ reps.length = n ∧ (∀ r ∈ reps, r ∈ univ) ∧
    reps.Pairwise (fun a b => ¬ connectedIn edges a b) ∧
    ∀ u ∈ univ, ∃ r ∈ reps, connectedIn edges r u

/-- The claim's active-neighbor set for round r > 0: connections that
produced a message in round r-1, the agent itself excluded. -/
def specActiveNeighbors (prev : List (String × String)) (agent : SimNode) : List String :=
  agent.connections.filter (fun nid => dictHasKey prev nid ∧ nid ≠ agent.id)

/-- The marker `m` occurs as a contiguous substring. -/
def occursIn (m cs : List Char) : Prop := ∃ p q, cs = p ++ m ++ q

/-- Text after the last occurrence of `m`, none when `m` does not
occur. -/
def afterLastOcc (m : List Char) : List Char → Option (List Char)
  | [] => none
  | c :: rest =>
    match afterLastOcc m rest with
    | some post => some post
    | none =>
      if m.isPrefixOf (c :: rest) then some ((c :: rest).drop m.length) else none

/-- The claim's post-processing contract, taken verbatim from the spec:
text after the LAST marker occurrence; absence returns the text
unchanged. -/
def specStripReasoningLast (content : String) : String :=
  match afterLastOcc thinkMarker content.data with
  | some post => String.mk post
  | none => content

/-! ## Helper lemmas -/

theorem dedupFirstSeenAux_mem (l : List String) :
    ∀ acc x, (x ∈ dedupFirstSeenAux l acc ↔ x ∈ acc ∨ x ∈ l) := by
  induction l with
  | nil => intro acc x; simp [dedupFirstSeenAux]
  | cons a t ih =>
    intro acc x
    unfold dedupFirstSeenAux
    by_cases h : a ∈ acc
    · rw [if_pos h, ih]
      constructor
      · rintro (hx | hx)
        · exact Or.inl hx
        · exact Or.inr (List.mem_cons_of_mem a hx)
      · rintro (hx | hx)
        · exact Or.inl hx
        · rcases List.mem_cons.mp hx with rfl | hx
          · exact Or.inl h
          · exact Or.inr hx
    · rw [if_neg h, ih]
      simp only [List.mem_append, List.mem_singleton, List.mem_cons]
      tauto

theorem mem_dedupFirstSeen (l : List String) (x : String) :
    x ∈ dedupFirstSeen l ↔ x ∈ l := by
  unfold dedupFirstSeen
  rw [dedupFirstSeenAux_mem]
  simp

theorem dedupFirstSeenAux_nodup (l : List String) :
    ∀ acc, acc.Nodup → (dedupFirstSeenAux l acc).Nodup := by
  induction l with
  | nil => intro acc h; exact h
  | cons a t ih =>
    intro acc h
    unfold dedupFirstSeenAux
    by_cases ha : a ∈ acc
    · rw [if_pos ha]; exact ih acc h
    · rw [if_neg ha]
      refine ih _ ?_
      rw [List.nodup_append]
      exact ⟨h, List.nodup_singleton a, fun x hx hxa => ha ((List.mem_singleton.mp hxa) ▸ hx)⟩

theorem nodup_dedupFirstSeen (l : List String) : (dedupFirstSeen l).Nodup :=
  dedupFirstSeenAux_nodup l [] List.nodup_nil

theorem charListLt_iff (x : List Char) :
    ∀ y, (charListLt x y = true ↔ List.Lex (· < ·) x y) := by
  induction x with
  | nil =>
    intro y
    cases y with
    | nil =>
      constructor
      · intro h; exact absurd h (by simp [charListLt])
      · intro h; cases h
    | cons b bs =>
      constructor
      · intro _; exact List.Lex.nil
      · intro _; rfl
  | cons a as ih =>
    intro y
    cases y with
    | nil =>
      constructor
      · intro h; exact absurd h (by simp [charListLt])
      · intro h; cases h
    | cons b bs =>
      show (decide (a < b) || (decide (a = b) && charListLt as bs)) = true ↔ _
      rw [Bool.or_eq_true, Bool.and_eq_true, decide_eq_true_iff, decide_eq_true_iff, ih bs]
      constructor
      · rintro (h | ⟨rfl, h⟩)
        · exact List.Lex.rel h
        · exact List.Lex.cons h
      · intro h
        cases h with
        | cons h => exact Or.inr ⟨rfl, h⟩
        | rel h => exact Or.inl h

theorem strLtB_iff (a b : String) : strLtB a b = true ↔ a < b := by
  rw [String.lt_iff_toList_lt]
  exact charListLt_iff a.data b.data

theorem strLeB_iff (a b : String) : strLeB a b = true ↔ a ≤ b := by
  show (charListLt a.data b.data || a.data == b.data) = true ↔ _
  rw [Bool.or_eq_true, beq_iff_eq, charListLt_iff]
  constructor
  · rintro (h | h)
    · exact le_of_lt (String.lt_iff_toList_lt.mpr h)
    · exact le_of_eq (String.toList_inj.mp h)
  · intro h
    rcases lt_or_eq_of_le h with hlt | rfl
    · exact Or.inl (String.lt_iff_toList_lt.mp hlt)
    · exact Or.inr rfl

theorem pyLe_iff (a b : String) : pyLe a b ↔ a ≤ b := strLeB_iff a b

instance : IsTotal String pyLe :=
  ⟨fun a b => by
    rcases le_total a b with h | h
    · exact Or.inl ((pyLe_iff a b).mpr h)
    · exact Or.inr ((pyLe_iff b a).mpr h)⟩

instance : IsTrans String pyLe :=
  ⟨fun a b c hab hbc =>
    (pyLe_iff a c).mpr (le_trans ((pyLe_iff a b).mp hab) ((pyLe_iff b c).mp hbc))⟩

instance : IsAntisymm String pyLe :=
  ⟨fun a b hab hba => le_antisymm ((pyLe_iff a b).mp hab) ((pyLe_iff b a).mp hba)⟩

theorem edgeLe_iff (a b : String × String) :
    edgeLe a b ↔ a.1 < b.1 ∨ (a.1 = b.1 ∧ a.2 ≤ b.2) := by
  show (strLtB a.1 b.1 || (a.1 == b.1 && strLeB a.2 b.2)) = true ↔ _
  rw [Bool.or_eq_true, Bool.and_eq_true, beq_iff_eq, strLtB_iff, strLeB_iff]

instance : IsTotal (String × String) edgeLe :=
  ⟨fun a b => by
    rw [edgeLe_iff, edgeLe_iff]
    rcases lt_trichotomy a.1 b.1 with h | h | h
    · exact Or.inl (Or.inl h)
    · rcases le_total a.2 b.2 with h2 | h2
      · exact Or.inl (Or.inr ⟨h, h2⟩)
      · exact Or.inr (Or.inr ⟨h.symm, h2⟩)
    · exact Or.inr (Or.inl h)⟩

instance : IsTrans (String × String) edgeLe :=
  ⟨fun a b c hab hbc => by
    rw [edgeLe_iff] at *
    rcases hab with h1 | ⟨h1, h1'⟩ <;> rcases hbc with h2 | ⟨h2, h2'⟩
    · exact Or.inl (lt_trans h1 h2)
    · exact Or.inl (h2 ▸ h1)
    · exact Or.inl (h1 ▸ h2)
    · exact Or.inr ⟨h1.trans h2, le_trans h1' h2'⟩⟩

instance : IsAntisymm (String × String) edgeLe :=
  ⟨fun a b hab hba => by
    rw [edgeLe_iff] at *
    rcases hab with h1 | ⟨h1, h1'⟩ <;> rcases hba with h2 | ⟨h2, h2'⟩
    · exact absurd h2 (lt_asymm h1)
    · exact absurd (h2 ▸ h1) (lt_irrefl a.1)
    · exact absurd (h1 ▸ h2) (lt_irrefl b.1)
    · exact Prod.ext h1 (le_antisymm h1' h2')⟩

theorem mem_sortedStrings (l : List String) (x : String) :
    x ∈ sortedStrings l ↔ x ∈ l :=
  (List.perm_insertionSort _ l).mem_iff

theorem sortedStrings_sorted (l : List String) : (sortedStrings l).Sorted (· ≤ ·) :=
  (List.sorted_insertionSort pyLe l).imp (fun h => (pyLe_iff _ _).mp h)

theorem sortedStrings_nodup (l : List String) (h : l.Nodup) : (sortedStrings l).Nodup :=
  ((List.perm_insertionSort pyLe l).nodup_iff).mpr h

/-! ## C5: start while running -/

/-- C5: a start request while the simulation state is `running` returns
the already-running signal, leaves the in-flight run's status and
results untouched, and queues no new background task. -/
theorem simulation_run_while_running (st : ServerSimState)
    (h : st.status.state = "running") :
    simulation_run st = (RunOutcome.alreadyRunning, st, false) := by
  simp [simulation_run, h]

theorem simulation_run_while_running_witness :
    simulation_run ⟨⟨"running", 2, 10, 1, ""⟩, []⟩ =
      (RunOutcome.alreadyRunning, ⟨⟨"running", 2, 10, 1, ""⟩, []⟩, false) :=
  simulation_run_while_running ⟨⟨"running", 2, 10, 1, ""⟩, []⟩ rfl

/-! ## C10: header-only CSV rejected -/

theorem parseCsvRowsLoop_blank (fieldnames : List String) (records : List CsvRecord)
    (h : ∀ r ∈ records, isBlankRow fieldnames r = true) :
    ∀ idx, parseCsvRowsLoop fieldnames records idx = .ok [] := by
  induction records with
  | nil => intro idx; rfl
  | cons r rest ih =>
    intro idx
    unfold parseCsvRowsLoop
    rw [if_pos (h r (List.mem_cons_self r rest))]
    exact ih (fun x hx => h x (List.mem_cons_of_mem r hx)) (idx + 1)

/-- C10: a CSV whose header passes validation (non-empty, all required
columns present) but whose records are all blank — in particular a
header-only CSV — is rejected with the dedicated no-data-rows
ValidationError instead of producing an empty graph. -/
theorem build_rejects_csv_without_data_rows (csv : CsvData) (directed : Bool)
    (hhdr : headerFieldnames csv ≠ [])
    (hreq : ∀ c ∈ REQUIRED_COLUMNS, c ∈ headerFieldnames csv)
    (hblank : ∀ r ∈ csv.records, isBlankRow (headerFieldnames csv) r = true) :
    build_social_graph csv directed = .error "CSV has no data rows." := by
  have hne : ¬ ∃ x ∈ REQUIRED_COLUMNS, x ∉ headerFieldnames csv := by
    rintro ⟨c, hc, hcn⟩
    exact hcn (hreq c hc)
  have hloop := parseCsvRowsLoop_blank (headerFieldnames csv) csv.records hblank 2
  have hparse : parse_csv_rows csv = .error "CSV has no data rows." := by
    unfold parse_csv_rows
    simp [hhdr, hloop, hne, Bind.bind, Except.bind, Functor.map, Except.map, Pure.pure, Except.pure]
  unfold build_social_graph
  rw [hparse]
  rfl

theorem build_rejects_csv_without_data_rows_witness :
    build_social_graph ⟨["agent_id", "connections", "system_prompt"], []⟩ true =
      .error "CSV has no data rows." :=
  build_rejects_csv_without_data_rows ⟨["agent_id", "connections", "system_prompt"], []⟩ true
    (by decide) (by decide) (fun r hr => absurd hr (List.not_mem_nil r))

/-! ## C1: duplicate agent_id aggregation -/

theorem parseCsvRowsLoop_ok (fieldnames : List String) (records : List CsvRecord)
    (h : ∀ r ∈ records, isBlankRow fieldnames r = false →
      dictGetD (normalize_record r fieldnames) "agent_id" "" ≠ "") :
    ∀ idx, parseCsvRowsLoop fieldnames records idx =
      .ok ((records.filter (fun r => !(isBlankRow fieldnames r))).map
        (fun r => normalize_record r fieldnames)) := by
  induction records with
  | nil => intro idx; rfl
  | cons r rest ih =>
    intro idx
    have hrest := ih (fun x hx => h x (List.mem_cons_of_mem r hx))
    unfold parseCsvRowsLoop
    by_cases hb : isBlankRow fieldnames r = true
    · rw [if_pos hb, hrest (idx + 1)]
      simp [List.filter_cons, hb]
    · have hb' : isBlankRow fieldnames r = false := by
        cases hx : isBlankRow fieldnames r
        · rfl
        · exact absurd hx hb
      rw [if_neg hb, if_neg (h r (List.mem_cons_self r rest) hb')]
      rw [hrest (idx + 1)]
      simp [Bind.bind, Except.bind, Pure.pure, Except.pure, List.filter_cons, hb']

theorem mem_dupOccurrences (L : List String) :
    ∀ seen x, (x ∈ dupOccurrences seen L ↔
      (x ∈ seen ∧ 1 ≤ L.count x) ∨ (x ∉ seen ∧ 2 ≤ L.count x)) := by
  induction L with
  | nil =>
    intro seen x
    simp [dupOccurrences]
  | cons a t ih =>
    intro seen x
    unfold dupOccurrences
    by_cases ha : a ∈ seen
    · rw [if_pos ha]
      by_cases hxa : x = a
      · subst hxa
        rw [List.count_cons_self]
        constructor
        · intro _
          exact Or.inl ⟨ha, Nat.le_add_left 1 _⟩
        · intro _
          exact List.mem_cons_self x _
      · rw [List.count_cons_of_ne hxa, List.mem_cons, ih seen x]
        constructor
        · rintro (h | h)
          · exact absurd h hxa
          · exact h
        · exact Or.inr
    · rw [if_neg ha, ih (seen ++ [a]) x]
      by_cases hxa : x = a
      · subst hxa
        rw [List.count_cons_self]
        have hin : x ∈ seen ++ [x] := List.mem_append_right _ (List.mem_singleton.mpr rfl)
        constructor
        · rintro (⟨_, hc⟩ | ⟨hn, _⟩)
          · exact Or.inr ⟨ha, by omega⟩
          · exact absurd hin hn
        · rintro (⟨hs, _⟩ | ⟨_, hc⟩)
          · exact absurd hs ha
          · exact Or.inl ⟨hin, by omega⟩
      · rw [List.count_cons_of_ne hxa]
        have hmem : x ∈ seen ++ [a] ↔ x ∈ seen := by
          simp [List.mem_append, hxa]
        rw [hmem]

theorem dedupeRowsLoop_dups (rows : List CsvRecord) :
    ∀ byId ordered dups, byId.map Prod.fst = ordered →
      (dedupeRowsLoop rows byId ordered dups).2.2 =
        dups ++ dupOccurrences ordered (rows.map (fun r => dictGetD r "agent_id" "")) := by
  induction rows with
  | nil => intro byId ordered dups _; simp [dedupeRowsLoop, dupOccurrences]
  | cons r rest ih =>
    intro byId ordered dups hmap
    have hfind : (byId.find? (fun p => p.1 = dictGetD r "agent_id" "")).isSome = true ↔
        dictGetD r "agent_id" "" ∈ ordered := by
      rw [List.find?_isSome]
      subst hmap
      constructor
      · rintro ⟨p, hp, hpid⟩
        exact List.mem_map.mpr ⟨p, hp, by simpa using hpid⟩
      · intro hx
        rcases List.mem_map.mp hx with ⟨p, hp, hpid⟩
        exact ⟨p, hp, by simpa using hpid⟩
    unfold dedupeRowsLoop
    by_cases hmem : dictGetD r "agent_id" "" ∈ ordered
    · rw [if_pos (hfind.mpr hmem)]
      rw [ih byId ordered (dups ++ [dictGetD r "agent_id" ""]) hmap]
      simp only [List.map_cons, dupOccurrences]
      rw [if_pos hmem]
      simp [List.append_assoc]
    · rw [if_neg (by rw [hfind]; exact hmem)]
      rw [ih (byId ++ [(dictGetD r "agent_id" "", r)]) (ordered ++ [dictGetD r "agent_id" ""]) dups
        (by simp [hmap])]
      simp only [List.map_cons, dupOccurrences]
      rw [if_neg hmem]

theorem parse_csv_rows_eq (csv : CsvData)
    (hhdr : headerFieldnames csv ≠ [])
    (hreq : ∀ c ∈ REQUIRED_COLUMNS, c ∈ headerFieldnames csv)
    (hids : ∀ r ∈ csv.records, isBlankRow (headerFieldnames csv) r = false →
      dictGetD (normalize_record r (headerFieldnames csv)) "agent_id" "" ≠ "")
    (hone : (csv.records.filter (fun r => !(isBlankRow (headerFieldnames csv) r))) ≠ []) :
    parse_csv_rows csv = .ok (headerFieldnames csv,
      (csv.records.filter (fun r => !(isBlankRow (headerFieldnames csv) r))).map
        (fun r => normalize_record r (headerFieldnames csv))) := by
  have hnex : ¬ ∃ x ∈ REQUIRED_COLUMNS, x ∉ headerFieldnames csv := by
    rintro ⟨c, hc, hcn⟩
    exact hcn (hreq c hc)
  have hloop := parseCsvRowsLoop_ok (headerFieldnames csv) csv.records hids 2
  have hmapne : (csv.records.filter (fun r => !(isBlankRow (headerFieldnames csv) r))).map
      (fun r => normalize_record r (headerFieldnames csv)) ≠ [] := by
    intro h
    exact hone (List.map_eq_nil.mp h)
  unfold parse_csv_rows
  simp [hhdr, hnex, hloop, hmapne, Bind.bind, Except.bind, Pure.pure, Except.pure]

theorem rowAgentIds_eq (csv : CsvData) :
    ((csv.records.filter (fun r => !(isBlankRow (headerFieldnames csv) r))).map
      (fun r => normalize_record r (headerFieldnames csv))).map
        (fun r => dictGetD r "agent_id" "") = rowAgentIds csv := by
  unfold rowAgentIds nonBlankRows
  rw [List.map_map]
  rfl

/-- C1 (amended): for every CSV whose header parses with all required
columns, in which every non-blank data row carries a non-empty agent_id,
and in which some agent_id occurs in two or more non-blank rows,
build_social_graph fails with one ValidationError whose message lists
each duplicated agent_id exactly once, in sorted order, and no graph is
returned. (The amendment adds the non-empty-agent_id condition: a
non-blank row with an empty agent_id aborts parsing first, with the
row-level missing-agent_id error.) -/
theorem build_duplicate_ids_aggregated_error (csv : CsvData) (directed : Bool)
    (hhdr : headerFieldnames csv ≠ [])
    (hreq : ∀ c ∈ REQUIRED_COLUMNS, c ∈ headerFieldnames csv)
    (hids : ∀ i ∈ rowAgentIds csv, i ≠ "")
    (hdup : ∃ x, 2 ≤ (rowAgentIds csv).count x) :
    ∃ D : List String,
      build_social_graph csv directed =
        .error ("Duplicate agent_id values detected: " ++ joinComma D ++ ".") ∧
      D.Sorted (· ≤ ·) ∧ D.Nodup ∧
      (∀ x, x ∈ D ↔ 2 ≤ (rowAgentIds csv).count x) := by
  classical
  have hids' : ∀ r ∈ csv.records, isBlankRow (headerFieldnames csv) r = false →
      dictGetD (normalize_record r (headerFieldnames csv)) "agent_id" "" ≠ "" := by
    intro r hr hb
    apply hids
    unfold rowAgentIds nonBlankRows
    exact List.mem_map.mpr ⟨r, List.mem_filter.mpr ⟨hr, by rw [hb]; rfl⟩, rfl⟩
  have hone : (csv.records.filter (fun r => !(isBlankRow (headerFieldnames csv) r))) ≠ [] := by
    rcases hdup with ⟨x, hx⟩
    have hxm : x ∈ rowAgentIds csv := List.count_pos_iff_mem.mp (by omega)
    unfold rowAgentIds nonBlankRows at hxm
    rcases List.mem_map.mp hxm with ⟨r, hr, _⟩
    exact List.ne_nil_of_mem hr
  have hparse := parse_csv_rows_eq csv hhdr hreq hids' hone
  set rows := (csv.records.filter (fun r => !(isBlankRow (headerFieldnames csv) r))).map
    (fun r => normalize_record r (headerFieldnames csv)) with hrowsdef
  have hidseq : rows.map (fun r => dictGetD r "agent_id" "") = rowAgentIds csv :=
    rowAgentIds_eq csv
  have hdups : (dedupeRowsLoop rows [] [] []).2.2 =
      dupOccurrences [] (rowAgentIds csv) := by
    rw [dedupeRowsLoop_dups rows [] [] [] rfl, hidseq]
    rfl
  have hmemdups : ∀ x, x ∈ (dedupeRowsLoop rows [] [] []).2.2 ↔
      2 ≤ (rowAgentIds csv).count x := by
    intro x
    rw [hdups, mem_dupOccurrences]
    simp
  have hdupsne : (dedupeRowsLoop rows [] [] []).2.2 ≠ [] := by
    rcases hdup with ⟨x, hx⟩
    exact List.ne_nil_of_mem ((hmemdups x).mpr hx)
  refine ⟨sortedStrings (dedupFirstSeen (dedupeRowsLoop rows [] [] []).2.2),
    ?_, sortedStrings_sorted _,
    sortedStrings_nodup _ (nodup_dedupFirstSeen _),
    ?_⟩
  · unfold build_social_graph
    rw [hparse]
    simp only [Bind.bind, Except.bind]
    generalize hsplit : dedupeRowsLoop rows [] [] [] = t at hdupsne ⊢
    obtain ⟨byId, ordered, dups⟩ := t
    rw [if_pos hdupsne]
  · intro x
    rw [mem_sortedStrings, mem_dedupFirstSeen]
    exact hmemdups x

/-- C1 counterexample: a CSV whose header parses and in which two
non-blank rows share agent_id "A" nevertheless fails with the row-level
missing-agent_id error (a third non-blank row has an empty agent_id),
not with an aggregated duplicate listing. -/
theorem duplicate_claim_counterexample :
    build_social_graph
      ⟨["agent_id", "connections", "system_prompt"],
       [[("agent_id", "A"), ("connections", ""), ("system_prompt", "p")],
        [("agent_id", "A"), ("connections", ""), ("system_prompt", "p")],
        [("agent_id", ""), ("connections", "x"), ("system_prompt", "")]]⟩ false
      = .error "Row 4 is missing agent_id." ∧
    "Row 4 is missing agent_id." ≠ "Duplicate agent_id values detected: A." := by
  constructor
  · rfl
  · decide

theorem build_duplicate_ids_aggregated_error_witness :
    ∃ D : List String,
      build_social_graph
        ⟨["agent_id", "connections", "system_prompt"],
         [[("agent_id", "B"), ("connections", ""), ("system_prompt", "p")],
          [("agent_id", "A"), ("connections", ""), ("system_prompt", "p")],
          [("agent_id", "B"), ("connections", ""), ("system_prompt", "p")],
          [("agent_id", "A"), ("connections", ""), ("system_prompt", "p")]]⟩ true =
        .error ("Duplicate agent_id values detected: " ++ joinComma D ++ ".") ∧
      D.Sorted (· ≤ ·) ∧ D.Nodup ∧
      (∀ x, x ∈ D ↔ 2 ≤ (rowAgentIds
        ⟨["agent_id", "connections", "system_prompt"],
         [[("agent_id", "B"), ("connections", ""), ("system_prompt", "p")],
          [("agent_id", "A"), ("connections", ""), ("system_prompt", "p")],
          [("agent_id", "B"), ("connections", ""), ("system_prompt", "p")],
          [("agent_id", "A"), ("connections", ""), ("system_prompt", "p")]]⟩).count x) :=
  build_duplicate_ids_aggregated_error
    ⟨["agent_id", "connections", "system_prompt"],
     [[("agent_id", "B"), ("connections", ""), ("system_prompt", "p")],
      [("agent_id", "A"), ("connections", ""), ("system_prompt", "p")],
      [("agent_id", "B"), ("connections", ""), ("system_prompt", "p")],
      [("agent_id", "A"), ("connections", ""), ("system_prompt", "p")]]⟩ true
    (by decide) (by decide) (by decide) ⟨"A", by decide⟩

/-! ## Build internals: edges, adjacency, warnings -/

theorem build_social_graph_ok (csv : CsvData) (directed : Bool)
    (f : List String) (rows : List CsvRecord)
    (hparse : parse_csv_rows csv = .ok (f, rows))
    (hnodup : (dedupeRowsLoop rows [] [] []).2.2 = []) :
    build_social_graph csv directed = .ok (graphFromRows directed rows) := by
  unfold build_social_graph
  rw [hparse]
  simp [Bind.bind, Except.bind, hnodup, Pure.pure, Except.pure]

theorem build_social_graph_ok_inv (csv : CsvData) (directed : Bool) (g : GraphBuildResponse)
    (h : build_social_graph csv directed = .ok g) :
    ∃ f rows, parse_csv_rows csv = .ok (f, rows) ∧
      (dedupeRowsLoop rows [] [] []).2.2 = [] ∧ g = graphFromRows directed rows := by
  unfold build_social_graph at h
  cases hp : parse_csv_rows csv with
  | error e =>
    rw [hp] at h
    exact absurd h (by simp [Bind.bind, Except.bind])
  | ok p =>
    obtain ⟨f, rows⟩ := p
    rw [hp] at h
    simp only [Bind.bind, Except.bind] at h
    by_cases hd : (dedupeRowsLoop rows [] [] []).2.2 = []
    · rw [if_neg (by simpa using hd)] at h
      refine ⟨f, rows, rfl, hd, ?_⟩
      simpa [Pure.pure, Except.pure] using h.symm
    · rw [if_pos hd] at h
      exact absurd h (by simp [Bind.bind, Except.bind, throw, throwThe, MonadExceptOf.throw])

theorem sortPair_cases (a b : String) : sortPair a b = (a, b) ∨ sortPair a b = (b, a) := by
  unfold sortPair
  split
  · exact Or.inl rfl
  · exact Or.inr rfl

theorem sortPair_comm (a b : String) : sortPair a b = sortPair b a := by
  unfold sortPair
  by_cases hab : strLeB a b = true
  · rw [if_pos hab]
    by_cases hba : strLeB b a = true
    · rw [if_pos hba]
      have : a = b := le_antisymm ((strLeB_iff a b).mp hab) ((strLeB_iff b a).mp hba)
      rw [this]
    · rw [if_neg hba]
  · rw [if_neg hab]
    have hba : strLeB b a = true := by
      rcases le_total a b with h | h
      · exact absurd ((strLeB_iff a b).mpr h) hab
      · exact (strLeB_iff b a).mpr h
    rw [if_pos hba]

theorem sortPair_ne (a b : String) (h : a ≠ b) : (sortPair a b).1 ≠ (sortPair a b).2 := by
  rcases sortPair_cases a b with he | he <;> rw [he]
  · exact h
  · exact h.symm

theorem sortPair_eq_iff (s t a b : String) (hst : s ≠ t) :
    sortPair a b = sortPair s t ↔ (a = s ∧ b = t) ∨ (a = t ∧ b = s) := by
  constructor
  · intro h
    rcases sortPair_cases a b with h1 | h1 <;> rcases sortPair_cases s t with h2 | h2 <;>
      rw [h1, h2] at h <;> injection h with hx hy
    · exact Or.inl ⟨hx, hy⟩
    · exact Or.inr ⟨hx, hy⟩
    · exact Or.inr ⟨hy, hx⟩
    · exact Or.inl ⟨hy, hx⟩
  · rintro (⟨rfl, rfl⟩ | ⟨rfl, rfl⟩)
    · rfl
    · exact sortPair_comm a b

theorem adjInsert_mem (adj : String → List String) (a b x y : String) :
    y ∈ adjInsert adj a b x ↔ y ∈ adj x ∨ (x = a ∧ y = b) := by
  unfold adjInsert
  by_cases hx : x = a
  · rw [if_pos hx]
    subst hx
    by_cases hb : b ∈ adj x
    · rw [if_pos hb]
      constructor
      · exact fun h => Or.inl h
      · rintro (h | ⟨_, rfl⟩)
        · exact h
        · exact hb
    · rw [if_neg hb]
      simp [List.mem_append]
  · rw [if_neg hx]
    simp [hx]

theorem connStep_edges_mem (directed : Bool) (ids : List String) (source : String)
    (st : BuildSt) (target : String) (e : String × String) :
    e ∈ (connStep directed ids source st target).edges ↔
      e ∈ st.edges ∨ (target ≠ source ∧ target ∈ ids ∧
        e = if directed then (source, target) else sortPair source target) := by
  unfold connStep
  by_cases h1 : target = source
  · rw [if_pos h1]
    simp [h1]
  · rw [if_neg h1]
    by_cases h2 : target ∈ ids
    · rw [if_neg (by simpa using h2)]
      cases directed with
      | true =>
        simp only [if_pos rfl]
        by_cases h3 : (source, target) ∈ st.edges
        · rw [if_pos h3]
          constructor
          · exact fun h => Or.inl h
          · rintro (h | ⟨_, _, rfl⟩)
            · exact h
            · simpa using h3
        · rw [if_neg h3]
          simp [List.mem_append, h1, h2]
      | false =>
        simp only [Bool.false_eq_true, if_neg, ite_false]
        by_cases h3 : sortPair source target ∈ st.edges
        · rw [if_pos h3]
          constructor
          · exact fun h => Or.inl h
          · rintro (h | ⟨_, _, rfl⟩)
            · exact h
            · simpa using h3
        · rw [if_neg h3]
          simp [List.mem_append, h1, h2]
    · rw [if_pos (by simpa using h2)]
      simp [h2]

theorem foldConn_edges_mem (directed : Bool) (ids : List String) (source : String)
    (l : List String) :
    ∀ st (e : String × String),
      (e ∈ (l.foldl (connStep directed ids source) st).edges ↔
        e ∈ st.edges ∨ ∃ tgt ∈ l, tgt ≠ source ∧ tgt ∈ ids ∧
          e = if directed then (source, tgt) else sortPair source tgt) := by
  induction l with
  | nil => intro st e; simp
  | cons a t ih =>
    intro st e
    rw [List.foldl_cons, ih, connStep_edges_mem]
    constructor
    · rintro ((h | ⟨hne, hin, he⟩) | ⟨tgt, hmem, h⟩)
      · exact Or.inl h
      · exact Or.inr ⟨a, List.mem_cons_self a t, hne, hin, he⟩
      · exact Or.inr ⟨tgt, List.mem_cons_of_mem a hmem, h⟩
    · rintro (h | ⟨tgt, hmem, h⟩)
      · exact Or.inl (Or.inl h)
      · rcases List.mem_cons.mp hmem with rfl | hmem
        · exact Or.inl (Or.inr h)
        · exact Or.inr ⟨tgt, hmem, h⟩

theorem buildEdges_edges_mem (directed : Bool) (ids : List String)
    (declMap : String → List String) (l : List String) :
    ∀ st (e : String × String),
      (e ∈ ((l.foldl (fun st src => (declMap src).foldl (connStep directed ids src) st) st).edges) ↔
        e ∈ st.edges ∨ ∃ src ∈ l, ∃ tgt ∈ declMap src, tgt ≠ src ∧ tgt ∈ ids ∧
          e = if directed then (src, tgt) else sortPair src tgt) := by
  induction l with
  | nil => intro st e; simp
  | cons a t ih =>
    intro st e
    rw [List.foldl_cons, ih, foldConn_edges_mem]
    constructor
    · rintro ((h | ⟨tgt, hmem, h⟩) | ⟨src, hsrc, h⟩)
      · exact Or.inl h
      · exact Or.inr ⟨a, List.mem_cons_self a t, tgt, hmem, h⟩
      · exact Or.inr ⟨src, List.mem_cons_of_mem a hsrc, h⟩
    · rintro (h | ⟨src, hsrc, h⟩)
      · exact Or.inl (Or.inl h)
      · rcases List.mem_cons.mp hsrc with rfl | hsrc
        · exact Or.inl (Or.inr h)
        · exact Or.inr ⟨src, hsrc, h⟩

theorem buildStOf_edges_mem (directed : Bool) (rows : List CsvRecord) (e : String × String) :
    e ∈ (buildStOf directed rows).edges ↔
      ∃ src ∈ orderedIdsOf rows, ∃ tgt ∈ declMapOf rows src,
        tgt ≠ src ∧ tgt ∈ orderedIdsOf rows ∧
        e = if directed then (src, tgt) else sortPair src tgt := by
  unfold buildStOf buildEdges
  rw [buildEdges_edges_mem]
  simp

theorem connStep_no_self (directed : Bool) (ids : List String) (source target : String)
    (st : BuildSt) (h : ∀ p ∈ st.edges, p.1 ≠ p.2) :
    ∀ p ∈ (connStep directed ids source st target).edges, p.1 ≠ p.2 := by
  intro p hp
  rcases (connStep_edges_mem directed ids source st target p).mp hp with hin | ⟨hne, _, he⟩
  · exact h p hin
  · subst he
    cases directed with
    | true => exact fun hc => hne (by simpa using hc.symm)
    | false => exact sortPair_ne source target (fun hc => hne hc.symm)

theorem buildStOf_no_self (directed : Bool) (rows : List CsvRecord) :
    ∀ p ∈ (buildStOf directed rows).edges, p.1 ≠ p.2 := by
  intro p hp
  rcases (buildStOf_edges_mem directed rows p).mp hp with ⟨src, _, tgt, _, hne, _, he⟩
  subst he
  cases directed with
  | true => exact fun hc => hne (by simpa using hc.symm)
  | false => exact sortPair_ne src tgt (fun hc => hne hc.symm)

theorem connStep_warnings_subset (directed : Bool) (ids : List String) (source target : String)
    (st : BuildSt) : ∀ w ∈ st.warnings, w ∈ (connStep directed ids source st target).warnings := by
  intro w hw
  unfold connStep
  split
  · exact List.mem_append_left _ hw
  · split
    · exact List.mem_append_left _ hw
    · split
      · split
        · exact hw
        · exact hw
      · split
        · exact hw
        · exact hw

theorem foldConn_warnings_subset (directed : Bool) (ids : List String) (source : String)
    (l : List String) : ∀ st, ∀ w ∈ st.warnings,
      w ∈ (l.foldl (connStep directed ids source) st).warnings := by
  induction l with
  | nil => intro st w hw; exact hw
  | cons a t ih =>
    intro st w hw
    rw [List.foldl_cons]
    exact ih _ w (connStep_warnings_subset directed ids source a st w hw)

theorem buildEdges_warnings_subset (directed : Bool) (ids : List String)
    (declMap : String → List String) (l : List String) :
    ∀ st, ∀ w ∈ st.warnings,
      w ∈ ((l.foldl (fun st src => (declMap src).foldl (connStep directed ids src) st) st).warnings) := by
  induction l with
  | nil => intro st w hw; exact hw
  | cons a t ih =>
    intro st w hw
    rw [List.foldl_cons]
    exact ih _ w (foldConn_warnings_subset directed ids a (declMap a) st w hw)

theorem connStep_self_warning (directed : Bool) (ids : List String) (source : String)
    (st : BuildSt) :
    ("Self-connection ignored for agent_id '" ++ source ++ "'.") ∈
      (connStep directed ids source st source).warnings := by
  unfold connStep
  rw [if_pos rfl]
  exact List.mem_append_right _ (List.mem_singleton.mpr rfl)

theorem foldConn_self_warning (directed : Bool) (ids : List String) (source : String)
    (l : List String) (hmem : source ∈ l) :
    ∀ st, ("Self-connection ignored for agent_id '" ++ source ++ "'.") ∈
      (l.foldl (connStep directed ids source) st).warnings := by
  induction l with
  | nil => exact absurd hmem (List.not_mem_nil source)
  | cons a t ih =>
    intro st
    rw [List.foldl_cons]
    rcases List.mem_cons.mp hmem with rfl | hmem'
    · exact foldConn_warnings_subset directed ids source t _ _
        (connStep_self_warning directed ids source st)
    · exact ih hmem' _

theorem buildEdgesList_self_warning (directed : Bool) (ids : List String)
    (declMap : String → List String) (l : List String) (src : String)
    (hsrc : src ∈ l) (hdecl : src ∈ declMap src) :
    ∀ st, ("Self-connection ignored for agent_id '" ++ src ++ "'.") ∈
      ((l.foldl (fun st s => (declMap s).foldl (connStep directed ids s) st) st).warnings) := by
  induction l with
  | nil => exact absurd hsrc (List.not_mem_nil src)
  | cons a t ih =>
    intro st
    rw [List.foldl_cons]
    rcases List.mem_cons.mp hsrc with rfl | h'
    · exact buildEdges_warnings_subset directed ids declMap t _ _
        (foldConn_self_warning directed ids src (declMap src) hdecl st)
    · exact ih h' _

theorem buildStOf_self_warning (directed : Bool) (rows : List CsvRecord) (src : String)
    (hsrc : src ∈ orderedIdsOf rows) (hdecl : src ∈ declMapOf rows src) :
    ("Self-connection ignored for agent_id '" ++ src ++ "'.") ∈
      (buildStOf directed rows).warnings :=
  buildEdgesList_self_warning directed (orderedIdsOf rows) (declMapOf rows)
    (orderedIdsOf rows) src hsrc hdecl _

theorem graphFromRows_nodes (directed : Bool) (rows : List CsvRecord) :
    (graphFromRows directed rows).nodes = (orderedIdsOf rows).map (fun aid =>
      GraphNode.mk aid (rowOfMap rows aid)
        (sortedStrings ((buildStOf directed rows).adj aid)) (declMapOf rows aid)) := rfl

theorem graphFromRows_warnings_mem (directed : Bool) (rows : List CsvRecord) (w : String)
    (hw : w ∈ (buildStOf directed rows).warnings) :
    w ∈ (graphFromRows directed rows).warnings := by
  show w ∈ (if _ > 1 then (buildStOf directed rows).warnings ++ _ else (buildStOf directed rows).warnings)
  split
  · exact List.mem_append_left _ hw
  · exact hw

theorem graphFromRows_edge_pairs_mem (directed : Bool) (rows : List CsvRecord)
    (e : GraphEdge) :
    e ∈ (graphFromRows directed rows).edges ↔
      (e.source, e.target) ∈ (buildStOf directed rows).edges := by
  show e ∈ ((buildStOf directed rows).edges.insertionSort edgeLe).map
      (fun p => GraphEdge.mk p.1 p.2) ↔ _
  rw [List.mem_map]
  constructor
  · rintro ⟨p, hp, rfl⟩
    exact (List.perm_insertionSort edgeLe _).mem_iff.mp hp
  · intro h
    exact ⟨(e.source, e.target), (List.perm_insertionSort edgeLe _).mem_iff.mpr h, rfl⟩

/-! ## C9: self connections -/

/-- C9: in every successfully built graph, a row that declares a
connection from an agent to itself always contributes a self-connection
warning, and no edge of the graph ever connects a node to itself, so
the self-declaration adds zero edges while the build still succeeds. -/
theorem self_connection_warned_never_edged (csv : CsvData) (directed : Bool)
    (g : GraphBuildResponse) (h : build_social_graph csv directed = .ok g) :
    ∀ n ∈ g.nodes, n.id ∈ n.declared_connections →
      (("Self-connection ignored for agent_id '" ++ n.id ++ "'.") ∈ g.warnings ∧
       ∀ e ∈ g.edges, e.source ≠ e.target) := by
  obtain ⟨f, rows, hparse, hnd, rfl⟩ := build_social_graph_ok_inv csv directed g h
  intro n hn hdecl
  rw [graphFromRows_nodes] at hn
  rcases List.mem_map.mp hn with ⟨aid, haid, rfl⟩
  refine ⟨?_, ?_⟩
  · exact graphFromRows_warnings_mem directed rows _
      (buildStOf_self_warning directed rows aid haid hdecl)
  · intro e he
    exact buildStOf_no_self directed rows (e.source, e.target)
      ((graphFromRows_edge_pairs_mem directed rows e).mp he)

theorem self_connection_warned_never_edged_witness :
    ("Self-connection ignored for agent_id 'A'.") ∈
        (graphFromRows false [[("agent_id", "A"), ("connections", "A"), ("system_prompt", "x")]]).warnings ∧
      ∀ e ∈ (graphFromRows false [[("agent_id", "A"), ("connections", "A"), ("system_prompt", "x")]]).edges,
        e.source ≠ e.target :=
  self_connection_warned_never_edged
    ⟨["agent_id", "connections", "system_prompt"],
     [[("agent_id", "A"), ("connections", "A"), ("system_prompt", "x")]]⟩ false
    (graphFromRows false [[("agent_id", "A"), ("connections", "A"), ("system_prompt", "x")]])
    (by rfl)
    ⟨"A", [("agent_id", "A"), ("connections", "A"), ("system_prompt", "x")], [], ["A"]⟩
    (by decide) (by decide)

/-! ## Undirected adjacency invariant and edge-set characterization -/

theorem connStep_adj_und (ids : List String) (src tgt : String) (st : BuildSt)
    (inv : ∀ a b, b ∈ st.adj a ↔ sortPair a b ∈ st.edges ∧ a ≠ b) :
    ∀ a b, b ∈ (connStep false ids src st tgt).adj a ↔
      sortPair a b ∈ (connStep false ids src st tgt).edges ∧ a ≠ b := by
  intro a b
  unfold connStep
  by_cases h1 : tgt = src
  · rw [if_pos h1]
    exact inv a b
  · rw [if_neg h1]
    by_cases h2 : tgt ∈ ids
    · rw [if_neg (by simpa using h2)]
      simp only [Bool.false_eq_true, if_false]
      by_cases h3 : sortPair src tgt ∈ st.edges
      · rw [if_pos h3]
        exact inv a b
      · rw [if_neg h3]
        show b ∈ adjInsert (adjInsert st.adj src tgt) tgt src a ↔
          sortPair a b ∈ st.edges ++ [sortPair src tgt] ∧ a ≠ b
        rw [adjInsert_mem, adjInsert_mem, List.mem_append, List.mem_singleton, inv a b]
        have hsrcne : src ≠ tgt := fun hc => h1 hc.symm
        constructor
        · rintro ((⟨he, hne⟩ | ⟨rfl, rfl⟩) | ⟨rfl, rfl⟩)
          · exact ⟨Or.inl he, hne⟩
          · exact ⟨Or.inr rfl, by assumption⟩
          · exact ⟨Or.inr (sortPair_comm _ _), by intro hc; exact absurd hc.symm (by assumption)⟩
        · rintro ⟨(he | he), hne⟩
          · exact Or.inl (Or.inl ⟨he, hne⟩)
          · rcases (sortPair_eq_iff src tgt a b hsrcne).mp he with ⟨rfl, rfl⟩ | ⟨rfl, rfl⟩
            · exact Or.inl (Or.inr ⟨rfl, rfl⟩)
            · exact Or.inr ⟨rfl, rfl⟩
    · rw [if_pos (by simpa using h2)]
      exact inv a b

theorem foldConn_adj_und (ids : List String) (src : String) (l : List String) :
    ∀ st, (∀ a b, b ∈ st.adj a ↔ sortPair a b ∈ st.edges ∧ a ≠ b) →
      ∀ a b, b ∈ ((l.foldl (connStep false ids src) st).adj a) ↔
        sortPair a b ∈ (l.foldl (connStep false ids src) st).edges ∧ a ≠ b := by
  induction l with
  | nil => intro st inv; exact inv
  | cons x t ih =>
    intro st inv
    rw [List.foldl_cons]
    exact ih _ (connStep_adj_und ids src x st inv)

theorem buildEdges_adj_und (ids : List String) (declMap : String → List String)
    (l : List String) :
    ∀ st, (∀ a b, b ∈ st.adj a ↔ sortPair a b ∈ st.edges ∧ a ≠ b) →
      ∀ a b, b ∈ ((l.foldl (fun st s => (declMap s).foldl (connStep false ids s) st) st).adj a) ↔
        sortPair a b ∈ (l.foldl (fun st s => (declMap s).foldl (connStep false ids s) st) st).edges ∧ a ≠ b := by
  induction l with
  | nil => intro st inv; exact inv
  | cons x t ih =>
    intro st inv
    rw [List.foldl_cons]
    exact ih _ (foldConn_adj_und ids x (declMap x) st inv)

theorem buildStOf_adj_und (rows : List CsvRecord) (a b : String) :
    b ∈ (buildStOf false rows).adj a ↔
      sortPair a b ∈ (buildStOf false rows).edges ∧ a ≠ b := by
  unfold buildStOf buildEdges
  exact buildEdges_adj_und (orderedIdsOf rows) (declMapOf rows) (orderedIdsOf rows)
    _ (by intro a b; simp) a b

theorem connStep_edges_nodup (directed : Bool) (ids : List String) (src tgt : String)
    (st : BuildSt) (h : st.edges.Nodup) : (connStep directed ids src st tgt).edges.Nodup := by
  unfold connStep
  split
  · exact h
  · split
    · exact h
    · split
      · split
        · exact h
        · rename_i hnotin
          rw [List.nodup_append]
          exact ⟨h, List.nodup_singleton _, fun x hx hx1 => hnotin (by rwa [List.mem_singleton.mp hx1] at hx)⟩
      · split
        · exact h
        · rename_i hnotin
          rw [List.nodup_append]
          exact ⟨h, List.nodup_singleton _, fun x hx hx1 => hnotin (by rwa [List.mem_singleton.mp hx1] at hx)⟩

theorem foldConn_edges_nodup (directed : Bool) (ids : List String) (src : String)
    (l : List String) : ∀ st, st.edges.Nodup →
      ((l.foldl (connStep directed ids src) st).edges).Nodup := by
  induction l with
  | nil => intro st h; exact h
  | cons x t ih =>
    intro st h
    rw [List.foldl_cons]
    exact ih _ (connStep_edges_nodup directed ids src x st h)

theorem buildEdgesList_edges_nodup (directed : Bool) (ids : List String)
    (declMap : String → List String) (l : List String) :
    ∀ st, st.edges.Nodup →
      ((l.foldl (fun st s => (declMap s).foldl (connStep directed ids s) st) st).edges).Nodup := by
  induction l with
  | nil => intro st h; exact h
  | cons x t ih =>
    intro st h
    rw [List.foldl_cons]
    exact ih _ (foldConn_edges_nodup directed ids x (declMap x) st h)

theorem buildStOf_edges_nodup (directed : Bool) (rows : List CsvRecord) :
    (buildStOf directed rows).edges.Nodup :=
  buildEdgesList_edges_nodup directed (orderedIdsOf rows) (declMapOf rows)
    (orderedIdsOf rows) _ List.nodup_nil

theorem buildStOf_und_mem_sortPair (rows : List CsvRecord) (A B : String) :
    sortPair A B ∈ (buildStOf false rows).edges ↔
      A ≠ B ∧ A ∈ orderedIdsOf rows ∧ B ∈ orderedIdsOf rows ∧
        (B ∈ declMapOf rows A ∨ A ∈ declMapOf rows B) := by
  rw [buildStOf_edges_mem]
  simp only [Bool.false_eq_true, if_false]
  constructor
  · rintro ⟨src, hsrc, tgt, htgt, hne, hin, he⟩
    have hsrcne : src ≠ tgt := fun hc => hne hc.symm
    rcases (sortPair_eq_iff src tgt A B hsrcne).mp he with ⟨hA, hB⟩ | ⟨hA, hB⟩
    · rw [hA, hB]
      exact ⟨hsrcne, hsrc, hin, Or.inl htgt⟩
    · rw [hA, hB]
      exact ⟨hne, hin, hsrc, Or.inr htgt⟩
  · rintro ⟨hne, hA, hB, hd | hd⟩
    · exact ⟨A, hA, B, hd, fun hc => hne hc.symm, hB, rfl⟩
    · exact ⟨B, hB, A, hd, hne, hA, sortPair_comm A B⟩

theorem buildStOf_und_edges_shape (rows : List CsvRecord) (e : String × String)
    (he : e ∈ (buildStOf false rows).edges) : sortPair e.1 e.2 = e := by
  rcases (buildStOf_edges_mem false rows e).mp he with ⟨src, _, tgt, _, hne, _, hee⟩
  simp only [Bool.false_eq_true, if_false] at hee
  subst hee
  rcases sortPair_cases src tgt with h | h <;> rw [h]
  · exact h
  · rw [sortPair_comm]
    exact h

theorem nodup_all_eq_singleton {α : Type} (l : List α) (x : α) (hnd : l.Nodup)
    (hall : ∀ y ∈ l, y = x) (hx : x ∈ l) : l = [x] := by
  cases l with
  | nil => exact absurd hx (List.not_mem_nil x)
  | cons a t =>
    have ha : a = x := hall a (List.mem_cons_self a t)
    cases t with
    | nil => rw [ha]
    | cons b t2 =>
      have hb : b = x := hall b (List.mem_cons_of_mem a (List.mem_cons_self b t2))
      have hax : a ∈ b :: t2 := by
        rw [ha, ← hb]
        exact List.mem_cons_self b t2
      exact absurd hax (List.nodup_cons.mp hnd).1

theorem map_id_of_eq {α : Type} {f : α → α} (l : List α) (h : ∀ x, f x = x) :
    l.map f = l := by
  induction l with
  | nil => rfl
  | cons a t ih => rw [List.map_cons, h a, ih]

theorem nodeIds_graphFromRows (directed : Bool) (rows : List CsvRecord) :
    nodeIds (graphFromRows directed rows) = orderedIdsOf rows := by
  unfold nodeIds
  rw [graphFromRows_nodes, List.map_map]
  exact map_id_of_eq _ (fun x => rfl)

theorem declaredRel_graphFromRows (directed : Bool) (rows : List CsvRecord) (a b : String) :
    declaredRel (graphFromRows directed rows) a b ↔
      a ∈ orderedIdsOf rows ∧ b ∈ declMapOf rows a := by
  unfold declaredRel
  rw [graphFromRows_nodes]
  constructor
  · rintro ⟨n, hn, hid, hdecl⟩
    rcases List.mem_map.mp hn with ⟨aid, haid, rfl⟩
    cases hid
    exact ⟨haid, hdecl⟩
  · rintro ⟨ha, hb⟩
    exact ⟨_, List.mem_map.mpr ⟨a, ha, rfl⟩, rfl, hb⟩

theorem graphFromRows_edges_nodup (directed : Bool) (rows : List CsvRecord) :
    (graphFromRows directed rows).edges.Nodup := by
  show (((buildStOf directed rows).edges.insertionSort edgeLe).map
    (fun p => GraphEdge.mk p.1 p.2)).Nodup
  apply List.Nodup.map
  · intro x y hxy
    have h1 := congrArg GraphEdge.source hxy
    have h2 := congrArg GraphEdge.target hxy
    exact Prod.ext h1 h2
  · exact ((List.perm_insertionSort edgeLe _).nodup_iff).mpr (buildStOf_edges_nodup directed rows)

/-! ## C2: undirected symmetry and edge dedup -/

/-- C2: in every successful undirected build, a connection between two
distinct existing agents A and B declared in at least one of their rows
yields symmetric adjacency (B in A's connections and A in B's) and
exactly one edge for the unordered pair {A,B}; moreover the edge list is
fully determined by the node ids and the symmetrized declaration
relation, so declaring the connection from both sides produces the same
edge set as declaring it once. -/
theorem undirected_symmetric_adjacency (csv : CsvData) (g : GraphBuildResponse)
    (hbuild : build_social_graph csv false = .ok g)
    (A B : String) (hne : A ≠ B)
    (hA : A ∈ nodeIds g) (hB : B ∈ nodeIds g)
    (hdecl : declaredRel g A B ∨ declaredRel g B A) :
    (∀ n ∈ g.nodes, n.id = A → B ∈ n.connections) ∧
    (∀ n ∈ g.nodes, n.id = B → A ∈ n.connections) ∧
    (g.edges.filter (fun e =>
      (e.source = A ∧ e.target = B) ∨ (e.source = B ∧ e.target = A))).length = 1 ∧
    (∀ csv2 g2, build_social_graph csv2 false = .ok g2 → nodeIds g2 = nodeIds g →
      (∀ a b, (declaredRel g2 a b ∨ declaredRel g2 b a) ↔
        (declaredRel g a b ∨ declaredRel g b a)) →
      g2.edges = g.edges) := by
  obtain ⟨f, rows, hparse, hnd, rfl⟩ := build_social_graph_ok_inv csv false g hbuild
  rw [nodeIds_graphFromRows] at hA hB
  have hdecl' : B ∈ declMapOf rows A ∨ A ∈ declMapOf rows B := by
    rcases hdecl with h | h
    · exact Or.inl ((declaredRel_graphFromRows false rows A B).mp h).2
    · exact Or.inr ((declaredRel_graphFromRows false rows B A).mp h).2
  have hedge : sortPair A B ∈ (buildStOf false rows).edges :=
    (buildStOf_und_mem_sortPair rows A B).mpr ⟨hne, hA, hB, hdecl'⟩
  refine ⟨?_, ?_, ?_, ?_⟩
  · intro n hn hid
    rw [graphFromRows_nodes] at hn
    rcases List.mem_map.mp hn with ⟨aid, _, rfl⟩
    have hida : aid = A := hid
    show B ∈ sortedStrings ((buildStOf false rows).adj aid)
    rw [hida, mem_sortedStrings, buildStOf_adj_und]
    exact ⟨hedge, hne⟩
  · intro n hn hid
    rw [graphFromRows_nodes] at hn
    rcases List.mem_map.mp hn with ⟨aid, _, rfl⟩
    have hidb : aid = B := hid
    show A ∈ sortedStrings ((buildStOf false rows).adj aid)
    rw [hidb, mem_sortedStrings, buildStOf_adj_und, sortPair_comm]
    exact ⟨hedge, fun hc => hne hc.symm⟩
  · have hτmem : GraphEdge.mk (sortPair A B).1 (sortPair A B).2 ∈
        (graphFromRows false rows).edges := by
      rw [graphFromRows_edge_pairs_mem]
      show ((sortPair A B).1, (sortPair A B).2) ∈ _
      rw [Prod.mk.eta]
      exact hedge
    have hτpred : ((GraphEdge.mk (sortPair A B).1 (sortPair A B).2).source = A ∧
        (GraphEdge.mk (sortPair A B).1 (sortPair A B).2).target = B) ∨
        ((GraphEdge.mk (sortPair A B).1 (sortPair A B).2).source = B ∧
         (GraphEdge.mk (sortPair A B).1 (sortPair A B).2).target = A) := by
      rcases sortPair_cases A B with h | h
      · exact Or.inl ⟨by rw [h], by rw [h]⟩
      · exact Or.inr ⟨by rw [h], by rw [h]⟩
    have hτfil : GraphEdge.mk (sortPair A B).1 (sortPair A B).2 ∈
        (graphFromRows false rows).edges.filter (fun e =>
          (e.source = A ∧ e.target = B) ∨ (e.source = B ∧ e.target = A)) :=
      List.mem_filter.mpr ⟨hτmem, decide_eq_true hτpred⟩
    have hall : ∀ y ∈ (graphFromRows false rows).edges.filter (fun e =>
        (e.source = A ∧ e.target = B) ∨ (e.source = B ∧ e.target = A)),
        y = GraphEdge.mk (sortPair A B).1 (sortPair A B).2 := by
      intro y hy
      have hymem := (List.mem_filter.mp hy).1
      have hypred := of_decide_eq_true (List.mem_filter.mp hy).2
      obtain ⟨ys, yt⟩ := y
      have hshape : sortPair ys yt = (ys, yt) :=
        buildStOf_und_edges_shape rows (ys, yt)
          ((graphFromRows_edge_pairs_mem false rows ⟨ys, yt⟩).mp hymem)
      rcases hypred with ⟨h1, h2⟩ | ⟨h1, h2⟩
      · have h1' : ys = A := h1
        have h2' : yt = B := h2
        rw [h1', h2'] at hshape
        show GraphEdge.mk ys yt = GraphEdge.mk (sortPair A B).1 (sortPair A B).2
        rw [h1', h2', hshape]
      · have h1' : ys = B := h1
        have h2' : yt = A := h2
        rw [h1', h2'] at hshape
        rw [sortPair_comm B A] at hshape
        show GraphEdge.mk ys yt = GraphEdge.mk (sortPair A B).1 (sortPair A B).2
        rw [h1', h2', hshape]
    have hfnd : ((graphFromRows false rows).edges.filter (fun e =>
        (e.source = A ∧ e.target = B) ∨ (e.source = B ∧ e.target = A))).Nodup :=
      (graphFromRows_edges_nodup false rows).filter _
    rw [nodup_all_eq_singleton _ _ hfnd hall hτfil]
    rfl
  · intro csv2 g2 hbuild2 hids hdeq
    obtain ⟨f2, rows2, hparse2, hnd2, rfl⟩ := build_social_graph_ok_inv csv2 false g2 hbuild2
    rw [nodeIds_graphFromRows, nodeIds_graphFromRows] at hids
    have hmemiff : ∀ e, e ∈ (buildStOf false rows2).edges ↔ e ∈ (buildStOf false rows).edges := by
      intro e
      constructor
      · intro he
        have hsh := buildStOf_und_edges_shape rows2 e he
        obtain ⟨hnee, h1, h2, hd⟩ :=
          (buildStOf_und_mem_sortPair rows2 e.1 e.2).mp (by rwa [hsh])
        have hdr : declaredRel (graphFromRows false rows2) e.1 e.2 ∨
            declaredRel (graphFromRows false rows2) e.2 e.1 := by
          rcases hd with hd | hd
          · exact Or.inl ((declaredRel_graphFromRows false rows2 e.1 e.2).mpr ⟨h1, hd⟩)
          · exact Or.inr ((declaredRel_graphFromRows false rows2 e.2 e.1).mpr ⟨h2, hd⟩)
        have hdr' := (hdeq e.1 e.2).mp hdr
        have hd' : e.2 ∈ declMapOf rows e.1 ∨ e.1 ∈ declMapOf rows e.2 := by
          rcases hdr' with h | h
          · exact Or.inl ((declaredRel_graphFromRows false rows e.1 e.2).mp h).2
          · exact Or.inr ((declaredRel_graphFromRows false rows e.2 e.1).mp h).2
        rw [← hsh]
        exact (buildStOf_und_mem_sortPair rows e.1 e.2).mpr
          ⟨hnee, by rwa [hids] at h1, by rwa [hids] at h2, hd'⟩
      · intro he
        have hsh := buildStOf_und_edges_shape rows e he
        obtain ⟨hnee, h1, h2, hd⟩ :=
          (buildStOf_und_mem_sortPair rows e.1 e.2).mp (by rwa [hsh])
        have hdr : declaredRel (graphFromRows false rows) e.1 e.2 ∨
            declaredRel (graphFromRows false rows) e.2 e.1 := by
          rcases hd with hd | hd
          · exact Or.inl ((declaredRel_graphFromRows false rows e.1 e.2).mpr ⟨h1, hd⟩)
          · exact Or.inr ((declaredRel_graphFromRows false rows e.2 e.1).mpr ⟨h2, hd⟩)
        have hdr' := (hdeq e.1 e.2).mpr hdr
        have hd' : e.2 ∈ declMapOf rows2 e.1 ∨ e.1 ∈ declMapOf rows2 e.2 := by
          rcases hdr' with h | h
          · exact Or.inl ((declaredRel_graphFromRows false rows2 e.1 e.2).mp h).2
          · exact Or.inr ((declaredRel_graphFromRows false rows2 e.2 e.1).mp h).2
        rw [← hsh]
        exact (buildStOf_und_mem_sortPair rows2 e.1 e.2).mpr
          ⟨hnee, by rwa [← hids] at h1, by rwa [← hids] at h2, hd'⟩
    have hperm : ((buildStOf false rows2).edges.insertionSort edgeLe).Perm
        ((buildStOf false rows).edges.insertionSort edgeLe) := by
      rw [List.perm_ext_iff_of_nodup
        (((List.perm_insertionSort edgeLe _).nodup_iff).mpr (buildStOf_edges_nodup false rows2))
        (((List.perm_insertionSort edgeLe _).nodup_iff).mpr (buildStOf_edges_nodup false rows))]
      intro e
      rw [(List.perm_insertionSort edgeLe _).mem_iff, (List.perm_insertionSort edgeLe _).mem_iff]
      exact hmemiff e
    have heq := List.eq_of_perm_of_sorted hperm
      (List.sorted_insertionSort edgeLe _) (List.sorted_insertionSort edgeLe _)
    show ((buildStOf false rows2).edges.insertionSort edgeLe).map _ =
      ((buildStOf false rows).edges.insertionSort edgeLe).map _
    rw [heq]

theorem undirected_symmetric_adjacency_witness :
    (∀ n ∈ (graphFromRows false
        [[("agent_id", "A"), ("connections", "B;C"), ("system_prompt", "pa")],
         [("agent_id", "B"), ("connections", "A"), ("system_prompt", "pb")],
         [("agent_id", "C"), ("connections", ""), ("system_prompt", "pc")]]).nodes,
      n.id = "A" → "B" ∈ n.connections) ∧
    (∀ n ∈ (graphFromRows false
        [[("agent_id", "A"), ("connections", "B;C"), ("system_prompt", "pa")],
         [("agent_id", "B"), ("connections", "A"), ("system_prompt", "pb")],
         [("agent_id", "C"), ("connections", ""), ("system_prompt", "pc")]]).nodes,
      n.id = "B" → "A" ∈ n.connections) ∧
    ((graphFromRows false
        [[("agent_id", "A"), ("connections", "B;C"), ("system_prompt", "pa")],
         [("agent_id", "B"), ("connections", "A"), ("system_prompt", "pb")],
         [("agent_id", "C"), ("connections", ""), ("system_prompt", "pc")]]).edges.filter (fun e =>
      (e.source = "A" ∧ e.target = "B") ∨ (e.source = "B" ∧ e.target = "A"))).length = 1 ∧
    (∀ csv2 g2, build_social_graph csv2 false = .ok g2 →
      nodeIds g2 = nodeIds (graphFromRows false
        [[("agent_id", "A"), ("connections", "B;C"), ("system_prompt", "pa")],
         [("agent_id", "B"), ("connections", "A"), ("system_prompt", "pb")],
         [("agent_id", "C"), ("connections", ""), ("system_prompt", "pc")]]) →
      (∀ a b, (declaredRel g2 a b ∨ declaredRel g2 b a) ↔
        (declaredRel (graphFromRows false
          [[("agent_id", "A"), ("connections", "B;C"), ("system_prompt", "pa")],
           [("agent_id", "B"), ("connections", "A"), ("system_prompt", "pb")],
           [("agent_id", "C"), ("connections", ""), ("system_prompt", "pc")]]) a b ∨
         declaredRel (graphFromRows false
          [[("agent_id", "A"), ("connections", "B;C"), ("system_prompt", "pa")],
           [("agent_id", "B"), ("connections", "A"), ("system_prompt", "pb")],
           [("agent_id", "C"), ("connections", ""), ("system_prompt", "pc")]]) b a)) →
      g2.edges = (graphFromRows false
        [[("agent_id", "A"), ("connections", "B;C"), ("system_prompt", "pa")],
         [("agent_id", "B"), ("connections", "A"), ("system_prompt", "pb")],
         [("agent_id", "C"), ("connections", ""), ("system_prompt", "pc")]]).edges) :=
  undirected_symmetric_adjacency
    ⟨["agent_id", "connections", "system_prompt"],
     [[("agent_id", "A"), ("connections", "B;C"), ("system_prompt", "pa")],
      [("agent_id", "B"), ("connections", "A"), ("system_prompt", "pb")],
      [("agent_id", "C"), ("connections", ""), ("system_prompt", "pc")]]⟩
    (graphFromRows false
      [[("agent_id", "A"), ("connections", "B;C"), ("system_prompt", "pa")],
       [("agent_id", "B"), ("connections", "A"), ("system_prompt", "pb")],
       [("agent_id", "C"), ("connections", ""), ("system_prompt", "pc")]])
    (by rfl) "A" "B" (by decide) (by decide) (by decide)
    (Or.inl ⟨⟨"A", [("agent_id", "A"), ("connections", "B;C"), ("system_prompt", "pa")],
      ["B", "C"], ["B", "C"]⟩, by decide, rfl, by decide⟩)

/-! ## C8: reasoning-marker stripping -/

theorem afterFirstOcc_some (m : List Char) :
    ∀ cs post, afterFirstOcc m cs = some post →
      ∃ pre, cs = pre ++ m ++ post ∧
        ∀ p q, cs = p ++ m ++ q → pre.length ≤ p.length := by
  intro cs
  induction cs with
  | nil => intro post h; cases h
  | cons c rest ih =>
    intro post h
    unfold afterFirstOcc at h
    by_cases hp : m.isPrefixOf (c :: rest) = true
    · rw [if_pos hp] at h
      injection h with h
      obtain ⟨t, ht⟩ := List.isPrefixOf_iff_prefix.mp hp
      refine ⟨[], ?_, fun p q _ => Nat.zero_le _⟩
      rw [← h, ← ht, List.nil_append, List.drop_left]
    · rw [if_neg hp] at h
      obtain ⟨pre, hpre, hmin⟩ := ih post h
      refine ⟨c :: pre, by rw [hpre]; rfl, ?_⟩
      intro p q hpq
      cases p with
      | nil =>
        exact absurd (List.isPrefixOf_iff_prefix.mpr ⟨q, by simpa using hpq.symm⟩) hp
      | cons c2 p2 =>
        injection hpq with hc hrest
        have := hmin p2 q hrest
        simpa [List.length_cons] using Nat.succ_le_succ this

theorem occursIn_afterFirstOcc (m : List Char) (hm : m ≠ []) :
    ∀ cs, occursIn m cs → (afterFirstOcc m cs).isSome = true := by
  intro cs
  induction cs with
  | nil =>
    rintro ⟨p, q, hpq⟩
    have h' := hpq.symm
    rw [List.append_eq_nil] at h'
    obtain ⟨h1, _⟩ := h'
    rw [List.append_eq_nil] at h1
    exact absurd h1.2 hm
  | cons c rest ih =>
    rintro ⟨p, q, hpq⟩
    unfold afterFirstOcc
    by_cases hp : m.isPrefixOf (c :: rest) = true
    · rw [if_pos hp]; rfl
    · rw [if_neg hp]
      cases p with
      | nil => exact absurd (List.isPrefixOf_iff_prefix.mpr ⟨q, by simpa using hpq.symm⟩) hp
      | cons c2 p2 =>
        injection hpq with _ hr
        exact ih ⟨p2, q, hr⟩

theorem dropWhile_eq_self_of_prefix (p : Char → Bool) (l d : List Char)
    (hpre : l <+: d) (hd : d.dropWhile p = d) : l.dropWhile p = l := by
  cases l with
  | nil => rfl
  | cons a t =>
    obtain ⟨s, hs⟩ := hpre
    rw [← hs] at hd
    rw [List.cons_append, List.dropWhile_cons] at hd
    by_cases hpa : p a = true
    · rw [if_pos hpa] at hd
      have hlen := congrArg List.length hd
      have hle := (List.dropWhile_suffix (l := t ++ s) p).length_le
      simp only [List.length_cons] at hlen
      omega
    · rw [List.dropWhile_cons, if_neg hpa]

theorem trimChars_idem (l : List Char) : trimChars (trimChars l) = trimChars l := by
  have hdd : (l.dropWhile Char.isWhitespace).dropWhile Char.isWhitespace =
      l.dropWhile Char.isWhitespace := List.dropWhile_idempotent _ _
  have hsuffix : (l.dropWhile Char.isWhitespace).reverse.dropWhile Char.isWhitespace <:+
      (l.dropWhile Char.isWhitespace).reverse := List.dropWhile_suffix _
  have hpre : ((l.dropWhile Char.isWhitespace).reverse.dropWhile Char.isWhitespace).reverse <+:
      l.dropWhile Char.isWhitespace := by
    have h := List.reverse_prefix.mpr hsuffix
    simpa using h
  have h1 : (((l.dropWhile Char.isWhitespace).reverse.dropWhile Char.isWhitespace).reverse).dropWhile
      Char.isWhitespace =
      ((l.dropWhile Char.isWhitespace).reverse.dropWhile Char.isWhitespace).reverse :=
    dropWhile_eq_self_of_prefix _ _ _ hpre hdd
  have h2 : ((l.dropWhile Char.isWhitespace).reverse.dropWhile Char.isWhitespace).dropWhile
      Char.isWhitespace =
      (l.dropWhile Char.isWhitespace).reverse.dropWhile Char.isWhitespace :=
    List.dropWhile_idempotent _ _
  show ((((trimChars l).dropWhile Char.isWhitespace).reverse).dropWhile Char.isWhitespace).reverse =
    trimChars l
  unfold trimChars
  rw [h1, List.reverse_reverse, h2]

/-- C8 counterexample: the code discards the text before the FIRST
marker occurrence (keeping any later markers in the output) and strips
surrounding whitespace even when the marker is absent, so the spec's
last-occurrence / unchanged-text contract fails on concrete inputs. -/
theorem marker_strip_counterexample :
    postProcessContent "a</think>b</think>c" = "b</think>c" ∧
    specStripReasoningLast "a</think>b</think>c" = "c" ∧
    postProcessContent "a</think>b</think>c" ≠
      specStripReasoningLast "a</think>b</think>c" ∧
    postProcessContent "  x  " = "x" ∧
    specStripReasoningLast "  x  " = "  x  " ∧
    postProcessContent "  x  " ≠ specStripReasoningLast "  x  " := by
  refine ⟨rfl, rfl, by decide, rfl, rfl, by decide⟩

/-- C8 (amended): the post-processing of generation output strips the
reasoning segment at the FIRST sentinel occurrence: everything before
the first marker is discarded, the spoken result is the text after the
first occurrence with surrounding whitespace stripped, and when the
marker is absent the full text is returned with only surrounding
whitespace stripped. -/
theorem postprocess_strips_first_marker (content : String) :
    (¬ occursIn thinkMarker content.data →
      postProcessContent content = String.mk (trimChars content.data)) ∧
    (occursIn thinkMarker content.data →
      ∃ pre post, content.data = pre ++ thinkMarker ++ post ∧
        (∀ p q, content.data = p ++ thinkMarker ++ q → pre.length ≤ p.length) ∧
        postProcessContent content = String.mk (trimChars post)) := by
  constructor
  · intro hno
    unfold postProcessContent stripThinkBlock
    cases hafter : afterFirstOcc thinkMarker content.data with
    | none => rfl
    | some post =>
      obtain ⟨pre, hpre, _⟩ := afterFirstOcc_some thinkMarker content.data post hafter
      exact absurd ⟨pre, post, hpre⟩ hno
  · intro hocc
    have hm : thinkMarker ≠ [] := by decide
    have hsome := occursIn_afterFirstOcc thinkMarker hm content.data hocc
    cases hafter : afterFirstOcc thinkMarker content.data with
    | none => rw [hafter] at hsome; cases hsome
    | some post =>
      obtain ⟨pre, hpre, hmin⟩ := afterFirstOcc_some thinkMarker content.data post hafter
      refine ⟨pre, post, hpre, hmin, ?_⟩
      unfold postProcessContent stripThinkBlock
      rw [hafter, trimChars_idem]

theorem postprocess_strips_first_marker_witness :
    ∃ pre post, ("r</think> out ").data = pre ++ thinkMarker ++ post ∧
      (∀ p q, ("r</think> out ").data = p ++ thinkMarker ++ q → pre.length ≤ p.length) ∧
      postProcessContent "r</think> out " = String.mk (trimChars post) :=
  (postprocess_strips_first_marker "r</think> out ").2
    ⟨("r").data, (" out ").data, by decide⟩

/-! ## Simulation-run lemmas -/

theorem lookupNodeLast_self (nodes : List SimNode)
    (hnd : (nodes.map (fun n => n.id)).Nodup) (n : SimNode) (hn : n ∈ nodes) :
    lookupNodeLast nodes n.id = some n := by
  unfold lookupNodeLast
  cases hfind : nodes.reverse.find? (fun m => m.id = n.id) with
  | none =>
    have h := List.find?_eq_none.mp hfind n (List.mem_reverse.mpr hn)
    simp at h
  | some m =>
    have hmem := List.mem_of_find?_eq_some hfind
    have hpred : m.id = n.id := by simpa using List.find?_some hfind
    have heq : m = n :=
      List.inj_on_of_nodup_map hnd (List.mem_reverse.mp hmem) hn hpred
    rw [heq]

theorem find?_keyed_map {β : Type} (l : List String) (f : String → β) (x : String)
    (hx : x ∈ l) :
    (l.map (fun a => (a, f a))).find? (fun p => p.1 = x) = some (x, f x) := by
  induction l with
  | nil => cases hx
  | cons a t ih =>
    rw [List.map_cons]
    by_cases hax : a = x
    · rw [List.find?_cons_of_pos _ (by simp [hax]), hax]
    · have hxt : x ∈ t := by
        rcases List.mem_cons.mp hx with h | h
        · exact absurd h.symm hax
        · exact h
      rw [List.find?_cons_of_neg _ (by simp [hax])]
      exact ih hxt

theorem dictHasKey_iff (m : List (String × String)) (x : String) :
    dictHasKey m x = true ↔ ∃ p ∈ m, p.1 = x := by
  unfold dictHasKey
  rw [List.find?_isSome]
  constructor
  · rintro ⟨p, hp, hpx⟩
    exact ⟨p, hp, by simpa using hpx⟩
  · rintro ⟨p, hp, hpx⟩
    exact ⟨p, hp, by simpa using hpx⟩

theorem dictGetD_map_nodes (nodes : List SimNode) (f : SimNode → String)
    (hnd : (nodes.map (fun n => n.id)).Nodup) (n : SimNode) (hn : n ∈ nodes) :
    dictGetD (nodes.map (fun m => (m.id, f m))) n.id "" = f n := by
  unfold dictGetD
  cases hfind : (nodes.map (fun m => (m.id, f m))).find? (fun p => p.1 = n.id) with
  | none =>
    have h := List.find?_eq_none.mp hfind (n.id, f n) (List.mem_map.mpr ⟨n, hn, rfl⟩)
    simp at h
  | some p =>
    have hmem := List.mem_of_find?_eq_some hfind
    have hpred : p.1 = n.id := by simpa using List.find?_some hfind
    rcases List.mem_map.mp hmem with ⟨m, hm, rfl⟩
    have heq : m = n := List.inj_on_of_nodup_map hnd hm hn (by simpa using hpred)
    rw [heq]

theorem dictHasKey_map_nodes (nodes : List SimNode) (f : SimNode → String) (aid : String) :
    dictHasKey (nodes.map (fun m => (m.id, f m))) aid = true ↔
      aid ∈ nodes.map (fun n => n.id) := by
  rw [dictHasKey_iff]
  constructor
  · rintro ⟨p, hp, hpx⟩
    rcases List.mem_map.mp hp with ⟨m, hm, rfl⟩
    exact List.mem_map.mpr ⟨m, hm, hpx⟩
  · intro h
    rcases List.mem_map.mp h with ⟨m, hm, hmx⟩
    exact ⟨(m.id, f m), List.mem_map.mpr ⟨m, hm, rfl⟩, hmx⟩

theorem dictInsert_fresh (m : List (String × String)) (k v : String)
    (h : dictHasKey m k = false) : dictInsert m k v = m ++ [(k, v)] := by
  unfold dictInsert
  rw [if_neg (by simp [h])]

theorem resultsAppend_find_same (res : List (String × List DayEntry)) (k : String)
    (e : DayEntry) :
    (resultsAppend res k e).find? (fun p => p.1 = k) =
      (res.find? (fun p => p.1 = k)).map (fun p => (p.1, p.2 ++ [e])) := by
  induction res with
  | nil => rfl
  | cons p t ih =>
    unfold resultsAppend at *
    rw [List.map_cons]
    by_cases hp : p.1 = k
    · rw [if_pos hp]
      rw [List.find?_cons_of_pos _ (by simpa using hp),
        List.find?_cons_of_pos _ (by simpa using hp)]
      rfl
    · rw [if_neg hp]
      rw [List.find?_cons_of_neg _ (by simpa using hp),
        List.find?_cons_of_neg _ (by simpa using hp)]
      exact ih

theorem resultsAppend_find_other (res : List (String × List DayEntry)) (k : String)
    (e : DayEntry) (aid : String) (hne : aid ≠ k) :
    (resultsAppend res k e).find? (fun p => p.1 = aid) =
      res.find? (fun p => p.1 = aid) := by
  induction res with
  | nil => rfl
  | cons p t ih =>
    unfold resultsAppend at *
    rw [List.map_cons]
    by_cases hp : p.1 = k
    · rw [if_pos hp]
      have hpa : ¬ p.1 = aid := by rw [hp]; exact fun hc => hne hc.symm
      rw [List.find?_cons_of_neg _ (by simpa using hpa),
        List.find?_cons_of_neg _ (by simpa using hpa)]
      exact ih
    · rw [if_neg hp]
      by_cases hpa : p.1 = aid
      · rw [List.find?_cons_of_pos _ (by simpa using hpa),
          List.find?_cons_of_pos _ (by simpa using hpa)]
      · rw [List.find?_cons_of_neg _ (by simpa using hpa),
          List.find?_cons_of_neg _ (by simpa using hpa)]
        exact ih

theorem runDayFold_msgs (nodes : List SimNode) (oracle : SimOracle) (day : Nat)
    (cm : List (String × String)) (L : List String) :
    ∀ acc : List (String × String) × List (String × List DayEntry),
      L.Nodup →
      (∀ aid ∈ L, ∃ ag, lookupNodeLast nodes aid = some ag) →
      (∀ aid ∈ L, dictHasKey acc.1 aid = false) →
      (L.foldl (runDayStep nodes oracle day cm) acc).1 =
        acc.1 ++ L.map (fun aid => (aid, call_sim_agent aid (oracle day aid))) := by
  induction L with
  | nil => intro acc _ _ _; simp
  | cons a t ih =>
    intro acc hnd hlook hfresh
    rw [List.foldl_cons]
    obtain ⟨ag, hag⟩ := hlook a (List.mem_cons_self a t)
    have hstep : runDayStep nodes oracle day cm acc a =
        (acc.1 ++ [(a, call_sim_agent a (oracle day a))],
         resultsAppend acc.2 a (DayEntry.mk day (call_sim_agent a (oracle day a))
           (agentDayInputs nodes day cm ag).talkedTo)) := by
      unfold runDayStep
      rw [hag]
      dsimp only
      rw [dictInsert_fresh _ _ _ (hfresh a (List.mem_cons_self a t))]
    rw [hstep]
    have hfresh' : ∀ aid ∈ t,
        dictHasKey (acc.1 ++ [(a, call_sim_agent a (oracle day a))], resultsAppend acc.2 a
          (DayEntry.mk day (call_sim_agent a (oracle day a))
            (agentDayInputs nodes day cm ag).talkedTo)).1 aid = false := by
      intro aid hmem
      show dictHasKey (acc.1 ++ [(a, call_sim_agent a (oracle day a))]) aid = false
      cases hk : dictHasKey (acc.1 ++ [(a, call_sim_agent a (oracle day a))]) aid with
      | false => rfl
      | true =>
        exfalso
        rcases (dictHasKey_iff _ _).mp hk with ⟨p, hp, hpx⟩
        rcases List.mem_append.mp hp with hp1 | hp1
        · have hcontra := hfresh aid (List.mem_cons_of_mem a hmem)
          rw [(dictHasKey_iff acc.1 aid).2 ⟨p, hp1, hpx⟩] at hcontra
          cases hcontra
        · rw [List.mem_singleton.mp hp1] at hpx
          have haid : a = aid := hpx
          rw [← haid] at hmem
          exact (List.nodup_cons.mp hnd).1 hmem
    rw [ih _ (List.nodup_cons.mp hnd).2
      (fun aid h => hlook aid (List.mem_cons_of_mem a h)) hfresh']
    simp

theorem runDayFold_results_notmem (nodes : List SimNode) (oracle : SimOracle) (day : Nat)
    (cm : List (String × String)) (L : List String) :
    ∀ acc aid, aid ∉ L →
      ((L.foldl (runDayStep nodes oracle day cm) acc).2.find? (fun p => p.1 = aid)) =
        acc.2.find? (fun p => p.1 = aid) := by
  induction L with
  | nil => intro acc aid _; rfl
  | cons a t ih =>
    intro acc aid hmem
    rw [List.foldl_cons]
    have hne : aid ≠ a := fun hc => hmem (hc ▸ List.mem_cons_self a t)
    rw [ih _ aid (fun hc => hmem (List.mem_cons_of_mem a hc))]
    unfold runDayStep
    cases lookupNodeLast nodes a with
    | none => rfl
    | some ag => exact resultsAppend_find_other acc.2 a _ aid hne

theorem runDayFold_results_mem (nodes : List SimNode) (oracle : SimOracle) (day : Nat)
    (cm : List (String × String)) (L : List String) :
    ∀ acc aid ag, L.Nodup → aid ∈ L → lookupNodeLast nodes aid = some ag →
      ((L.foldl (runDayStep nodes oracle day cm) acc).2.find? (fun p => p.1 = aid)) =
        (acc.2.find? (fun p => p.1 = aid)).map (fun p =>
          (p.1, p.2 ++ [DayEntry.mk day (call_sim_agent aid (oracle day aid))
            ((agentDayInputs nodes day cm ag).talkedTo)])) := by
  induction L with
  | nil => intro acc aid ag _ hmem; cases hmem
  | cons a t ih =>
    intro acc aid ag hnd hmem hag
    rw [List.foldl_cons]
    rcases List.mem_cons.mp hmem with rfl | hmem'
    · rw [runDayFold_results_notmem nodes oracle day cm t _ aid (List.nodup_cons.mp hnd).1]
      unfold runDayStep
      rw [hag]
      exact resultsAppend_find_same acc.2 aid _
    · have hne : aid ≠ a := fun hc => (List.nodup_cons.mp hnd).1 (hc ▸ hmem')
      rw [ih _ aid ag (List.nodup_cons.mp hnd).2 hmem' hag]
      unfold runDayStep
      cases lookupNodeLast nodes a with
      | none => rfl
      | some ag2 => rw [resultsAppend_find_other acc.2 a _ aid hne]

theorem simStateAfter_zero (nodes : List SimNode) (oracle : SimOracle) :
    simStateAfter nodes oracle 0 = ([], simInitResults (nodes.map (fun n => n.id))) := rfl

theorem simStateAfter_succ (nodes : List SimNode) (oracle : SimOracle) (k : Nat) :
    simStateAfter nodes oracle (k + 1) =
      runDay nodes oracle k (simStateAfter nodes oracle k).1 (simStateAfter nodes oracle k).2 := by
  unfold simStateAfter
  rw [List.range_succ, List.foldl_append]
  rfl

theorem ids_lookup_exists (nodes : List SimNode)
    (hnd : (nodes.map (fun n => n.id)).Nodup) :
    ∀ aid ∈ nodes.map (fun n => n.id), ∃ ag, lookupNodeLast nodes aid = some ag := by
  intro aid hmem
  rcases List.mem_map.mp hmem with ⟨n, hn, rfl⟩
  exact ⟨n, lookupNodeLast_self nodes hnd n hn⟩

theorem simStateAfter_msgs (nodes : List SimNode) (oracle : SimOracle)
    (hnd : (nodes.map (fun n => n.id)).Nodup) (k : Nat) (hk : 1 ≤ k) :
    (simStateAfter nodes oracle k).1 =
      nodes.map (fun n => (n.id, call_sim_agent n.id (oracle (k - 1) n.id))) := by
  cases k with
  | zero => cases hk
  | succ j =>
    rw [simStateAfter_succ]
    unfold runDay
    rw [runDayFold_msgs nodes oracle j _ _ ([], (simStateAfter nodes oracle j).2) hnd
      (ids_lookup_exists nodes hnd) (fun aid _ => rfl)]
    rw [List.nil_append, List.map_map]
    rfl

theorem simInitResults_find (nodes : List SimNode) (n : SimNode) (hn : n ∈ nodes) :
    (simInitResults (nodes.map (fun m => m.id))).find? (fun p => p.1 = n.id) =
      some (n.id, ([] : List DayEntry)) := by
  unfold simInitResults
  exact find?_keyed_map (dedupFirstSeen (nodes.map (fun m => m.id))) (fun _ => []) n.id
    ((mem_dedupFirstSeen _ _).mpr (List.mem_map.mpr ⟨n, hn, rfl⟩))

theorem simStateAfter_results (nodes : List SimNode) (oracle : SimOracle)
    (hnd : (nodes.map (fun n => n.id)).Nodup) :
    ∀ k, ∀ n ∈ nodes,
      ((simStateAfter nodes oracle k).2.find? (fun p => p.1 = n.id)) =
        some (n.id, (List.range k).map (fun i =>
          DayEntry.mk i (call_sim_agent n.id (oracle i n.id))
            ((agentDayInputs nodes i (simStateAfter nodes oracle i).1 n).talkedTo))) := by
  intro k
  induction k with
  | zero =>
    intro n hn
    rw [simStateAfter_zero]
    rw [simInitResults_find nodes n hn]
    rfl
  | succ j ih =>
    intro n hn
    rw [simStateAfter_succ]
    unfold runDay
    rw [runDayFold_results_mem nodes oracle j _ _ _ n.id n hnd
      (List.mem_map.mpr ⟨n, hn, rfl⟩) (lookupNodeLast_self nodes hnd n hn)]
    rw [ih n hn]
    rw [Option.map_some']
    rw [List.range_succ, List.map_append]
    rfl

theorem run_simulation_task_results (nodes : List SimNode) (oracle : SimOracle)
    (hnd : (nodes.map (fun n => n.id)).Nodup) (n : SimNode) (hn : n ∈ nodes) :
    ((run_simulation_task nodes oracle).2.find? (fun p => p.1 = n.id)) =
      some (n.id, AgentResult.mk n.id (dictGetD n.metadata "full_name" n.id)
        ((List.range SIMULATION_DAYS).map (fun i =>
          DayEntry.mk i (call_sim_agent n.id (oracle i n.id))
            ((agentDayInputs nodes i (simStateAfter nodes oracle i).1 n).talkedTo)))
        (call_sim_agent n.id (oracle 0 n.id))
        (call_sim_agent n.id (oracle 4 n.id))) := by
  have hne : nodes ≠ [] := fun hc => by rw [hc] at hn; cases hn
  unfold run_simulation_task
  rw [if_neg hne]
  dsimp only
  unfold compileResults
  rw [find?_keyed_map _ _ n.id ((mem_dedupFirstSeen _ _).mpr (List.mem_map.mpr ⟨n, hn, rfl⟩))]
  rw [simStateAfter_results nodes oracle hnd SIMULATION_DAYS n hn,
    lookupNodeLast_self nodes hnd n hn]
  rfl

theorem dedupFirstSeenAux_of_nodup (l : List String) :
    ∀ acc, l.Nodup → (∀ x ∈ l, x ∉ acc) → dedupFirstSeenAux l acc = acc ++ l := by
  induction l with
  | nil => intro acc _ _; simp [dedupFirstSeenAux]
  | cons a t ih =>
    intro acc hnd hdisj
    unfold dedupFirstSeenAux
    rw [if_neg (hdisj a (List.mem_cons_self a t))]
    rw [ih (acc ++ [a]) (List.nodup_cons.mp hnd).2 ?_]
    · simp
    · intro x hx hc
      rcases List.mem_append.mp hc with h | h
      · exact hdisj x (List.mem_cons_of_mem a hx) h
      · rw [List.mem_singleton.mp h] at hx
        exact (List.nodup_cons.mp hnd).1 hx

theorem dedupFirstSeen_of_nodup (l : List String) (h : l.Nodup) : dedupFirstSeen l = l := by
  unfold dedupFirstSeen
  rw [dedupFirstSeenAux_of_nodup l [] h (fun x _ => List.not_mem_nil x)]
  simp

/-! ## C4: results shape on completion -/

/-- C4: a completed round-stepped run (state done) has exactly one
results entry per node; each agent's days list has exactly
SIMULATION_DAYS (= 5) entries with day indices 0..4 in order, the
initial field is the day-0 content and the final field the day-4
content. -/
theorem simulation_results_shape (nodes : List SimNode) (oracle : SimOracle)
    (hnd : (nodes.map (fun n => n.id)).Nodup)
    (st : SimStatus) (res : List (String × AgentResult))
    (hrun : run_simulation_task nodes oracle = (st, res)) (hdone : st.state = "done") :
    res.map (fun p => p.1) = nodes.map (fun n => n.id) ∧
    ∀ n ∈ nodes, ∃ ar, res.find? (fun p => p.1 = n.id) = some (n.id, ar) ∧
      ar.days.map (fun e => e.day) = List.range SIMULATION_DAYS ∧
      ar.days.length = SIMULATION_DAYS ∧
      (∃ e0, ar.days.head? = some e0 ∧ e0.day = 0 ∧ ar.initial = e0.content) ∧
      (∃ eL, ar.days.getLast? = some eL ∧ eL.day = SIMULATION_DAYS - 1 ∧
        ar.final = eL.content) := by
  have hne : nodes ≠ [] := by
    intro hc
    rw [hc] at hrun
    unfold run_simulation_task at hrun
    rw [if_pos rfl] at hrun
    injection hrun with h1 _
    rw [← h1] at hdone
    exact absurd hdone (by decide)
  have hres : res = (run_simulation_task nodes oracle).2 := by rw [hrun]
  constructor
  · rw [hres]
    unfold run_simulation_task
    rw [if_neg hne]
    dsimp only
    unfold compileResults
    rw [List.map_map, dedupFirstSeen_of_nodup _ hnd]
    exact map_id_of_eq _ (fun x => rfl)
  · intro n hn
    refine ⟨_, by rw [hres]; exact run_simulation_task_results nodes oracle hnd n hn,
      ?_, ?_, ?_, ?_⟩
    · rw [List.map_map]
      show (List.range SIMULATION_DAYS).map _ = List.range SIMULATION_DAYS
      exact map_id_of_eq _ (fun x => rfl)
    · rw [List.length_map, List.length_range]
    · exact ⟨_, rfl, rfl, rfl⟩
    · exact ⟨_, rfl, rfl, rfl⟩

theorem simulation_results_shape_witness :
    ([("A", AgentResult.mk "A" "A"
        [DayEntry.mk 0 "m" [], DayEntry.mk 1 "m" [], DayEntry.mk 2 "m" [],
         DayEntry.mk 3 "m" [], DayEntry.mk 4 "m" []] "m" "m")].map (fun p => p.1) =
      [SimNode.mk "A" [] []].map (fun n => n.id)) ∧
    ∀ n ∈ [SimNode.mk "A" [] []], ∃ ar,
      ([("A", AgentResult.mk "A" "A"
        [DayEntry.mk 0 "m" [], DayEntry.mk 1 "m" [], DayEntry.mk 2 "m" [],
         DayEntry.mk 3 "m" [], DayEntry.mk 4 "m" []] "m" "m")].find? (fun p => p.1 = n.id)) =
          some (n.id, ar) ∧
      ar.days.map (fun e => e.day) = List.range SIMULATION_DAYS ∧
      ar.days.length = SIMULATION_DAYS ∧
      (∃ e0, ar.days.head? = some e0 ∧ e0.day = 0 ∧ ar.initial = e0.content) ∧
      (∃ eL, ar.days.getLast? = some eL ∧ eL.day = SIMULATION_DAYS - 1 ∧
        ar.final = eL.content) :=
  simulation_results_shape [SimNode.mk "A" [] []] (fun _ _ => Except.ok "m")
    (by decide)
    (SimStatus.mk "done" 5 5 5 "")
    [("A", AgentResult.mk "A" "A"
      [DayEntry.mk 0 "m" [], DayEntry.mk 1 "m" [], DayEntry.mk 2 "m" [],
       DayEntry.mk 3 "m" [], DayEntry.mk 4 "m" []] "m" "m")]
    (by rfl) rfl

/-! ## C6: per-agent failure isolation -/

/-- C6: if the generation call fails (or times out) for one agent in
round d, that agent's recorded content for round d is the visible
placeholder naming it, every agent still gets a round-d entry whose
content depends only on its own call, and round d+1 still executes for
every agent. -/
theorem generation_failure_isolated (nodes : List SimNode) (oracle : SimOracle)
    (hnd : (nodes.map (fun n => n.id)).Nodup)
    (a : SimNode) (ha : a ∈ nodes) (d : Nat) (hd : d < SIMULATION_DAYS)
    (e : String) (hfail : oracle d a.id = .error e) :
    (∀ n ∈ nodes, ∃ ar,
      (run_simulation_task nodes oracle).2.find? (fun p => p.1 = n.id) = some (n.id, ar) ∧
      ar.days[d]? = some (DayEntry.mk d (call_sim_agent n.id (oracle d n.id))
        ((agentDayInputs nodes d (simStateAfter nodes oracle d).1 n).talkedTo))) ∧
    (∃ ar, (run_simulation_task nodes oracle).2.find? (fun p => p.1 = a.id) =
        some (a.id, ar) ∧
      ∃ en, ar.days[d]? = some en ∧
        en.content = "[" ++ a.id ++ " unavailable: " ++ e ++ "]") ∧
    (d + 1 < SIMULATION_DAYS →
      ∀ n ∈ nodes, ∃ ar,
        (run_simulation_task nodes oracle).2.find? (fun p => p.1 = n.id) = some (n.id, ar) ∧
        ∃ en, ar.days[d + 1]? = some en ∧ en.day = d + 1) := by
  have hget : ∀ (n : SimNode) (i : Nat), i < SIMULATION_DAYS →
      (((List.range SIMULATION_DAYS).map (fun i =>
        DayEntry.mk i (call_sim_agent n.id (oracle i n.id))
          ((agentDayInputs nodes i (simStateAfter nodes oracle i).1 n).talkedTo)))[i]?) =
        some (DayEntry.mk i (call_sim_agent n.id (oracle i n.id))
          ((agentDayInputs nodes i (simStateAfter nodes oracle i).1 n).talkedTo)) := by
    intro n i hi
    rw [List.getElem?_map, List.getElem?_range hi]
    rfl
  refine ⟨?_, ?_, ?_⟩
  · intro n hn
    exact ⟨_, run_simulation_task_results nodes oracle hnd n hn, hget n d hd⟩
  · refine ⟨_, run_simulation_task_results nodes oracle hnd a ha, _, hget a d hd, ?_⟩
    show call_sim_agent a.id (oracle d a.id) = _
    rw [hfail]
    rfl
  · intro hd1 n hn
    exact ⟨_, run_simulation_task_results nodes oracle hnd n hn,
      _, hget n (d + 1) hd1, rfl⟩

theorem generation_failure_isolated_witness :
    (∀ n ∈ [SimNode.mk "A" [] []], ∃ ar,
      (run_simulation_task [SimNode.mk "A" [] []]
        (fun i _ => if i = 1 then Except.error "timeout" else Except.ok "m")).2.find?
          (fun p => p.1 = n.id) = some (n.id, ar) ∧
      ar.days[1]? = some (DayEntry.mk 1 (call_sim_agent n.id
        ((fun i _ => if i = 1 then Except.error "timeout" else Except.ok "m") 1 n.id))
        ((agentDayInputs [SimNode.mk "A" [] []] 1
          (simStateAfter [SimNode.mk "A" [] []]
            (fun i _ => if i = 1 then Except.error "timeout" else Except.ok "m") 1).1
          n).talkedTo))) ∧
    (∃ ar, (run_simulation_task [SimNode.mk "A" [] []]
        (fun i _ => if i = 1 then Except.error "timeout" else Except.ok "m")).2.find?
          (fun p => p.1 = (SimNode.mk "A" [] []).id) = some ((SimNode.mk "A" [] []).id, ar) ∧
      ∃ en, ar.days[1]? = some en ∧
        en.content = "[" ++ (SimNode.mk "A" [] []).id ++ " unavailable: " ++ "timeout" ++ "]") ∧
    (1 + 1 < SIMULATION_DAYS →
      ∀ n ∈ [SimNode.mk "A" [] []], ∃ ar,
        (run_simulation_task [SimNode.mk "A" [] []]
          (fun i _ => if i = 1 then Except.error "timeout" else Except.ok "m")).2.find?
            (fun p => p.1 = n.id) = some (n.id, ar) ∧
        ∃ en, ar.days[1 + 1]? = some en ∧ en.day = 1 + 1) :=
  generation_failure_isolated [SimNode.mk "A" [] []]
    (fun i _ => if i = 1 then Except.error "timeout" else Except.ok "m")
    (by decide) (SimNode.mk "A" [] []) (by decide) 1 (by decide) "timeout" rfl

/-! ## C7: round inputs from active neighbors -/

/-- C7: in every round d ≥ 1 of the round-stepped simulation over nodes
that never list themselves in their connections (the Graph data-model
invariant), agent A's incoming messages are exactly the previous-round
messages of its active neighbors — connections that produced a message
in round d-1, A itself excluded — and when that set is empty the input
falls back to A's own previous message when present and otherwise to
the original stimulus. The first conjunct identifies the previous-round
message snapshot. -/
theorem round_inputs_from_active_neighbors (nodes : List SimNode) (oracle : SimOracle)
    (hnd : (nodes.map (fun n => n.id)).Nodup)
    (A : SimNode) (hA : A ∈ nodes) (hself : A.id ∉ A.connections)
    (d : Nat) (hd1 : 1 ≤ d) (hdR : d < SIMULATION_DAYS) :
    (simStateAfter nodes oracle d).1 =
      nodes.map (fun n => (n.id, call_sim_agent n.id (oracle (d - 1) n.id))) ∧
    (agentDayInputs nodes d (simStateAfter nodes oracle d).1 A).incoming =
      (if specActiveNeighbors (simStateAfter nodes oracle d).1 A ≠ [] then
        (specActiveNeighbors (simStateAfter nodes oracle d).1 A).map
          (fun nid => dictGetD (simStateAfter nodes oracle d).1 nid "")
      else if dictHasKey (simStateAfter nodes oracle d).1 A.id then
        [dictGetD (simStateAfter nodes oracle d).1 A.id ""]
      else [SIMULATION_NEWS_SPARK]) := by
  refine ⟨simStateAfter_msgs nodes oracle hnd d hd1, ?_⟩
  have hfil : specActiveNeighbors (simStateAfter nodes oracle d).1 A =
      A.connections.filter (fun nid => dictHasKey (simStateAfter nodes oracle d).1 nid) := by
    unfold specActiveNeighbors
    apply List.filter_congr
    intro x hx
    have hxne : x ≠ A.id := fun hc => hself (hc ▸ hx)
    simp [hxne]
  unfold agentDayInputs
  rw [if_neg (by omega : ¬ d = 0)]
  dsimp only
  rw [← hfil]
  by_cases hact : specActiveNeighbors (simStateAfter nodes oracle d).1 A = []
  · by_cases hkey : dictHasKey (simStateAfter nodes oracle d).1 A.id = true
    · simp [hact, hkey]
    · simp [hact, hkey]
  · simp [hact]

theorem round_inputs_from_active_neighbors_witness :
    (simStateAfter [SimNode.mk "A" [] ["B"], SimNode.mk "B" [] ["A"]]
        (fun _ _ => Except.ok "m") 1).1 =
      [SimNode.mk "A" [] ["B"], SimNode.mk "B" [] ["A"]].map
        (fun n => (n.id, call_sim_agent n.id ((fun _ _ => Except.ok "m") (1 - 1) n.id))) ∧
    (agentDayInputs [SimNode.mk "A" [] ["B"], SimNode.mk "B" [] ["A"]] 1
        (simStateAfter [SimNode.mk "A" [] ["B"], SimNode.mk "B" [] ["A"]]
          (fun _ _ => Except.ok "m") 1).1 (SimNode.mk "A" [] ["B"])).incoming =
      (if specActiveNeighbors (simStateAfter [SimNode.mk "A" [] ["B"], SimNode.mk "B" [] ["A"]]
          (fun _ _ => Except.ok "m") 1).1 (SimNode.mk "A" [] ["B"]) ≠ [] then
        (specActiveNeighbors (simStateAfter [SimNode.mk "A" [] ["B"], SimNode.mk "B" [] ["A"]]
          (fun _ _ => Except.ok "m") 1).1 (SimNode.mk "A" [] ["B"])).map
          (fun nid => dictGetD (simStateAfter [SimNode.mk "A" [] ["B"], SimNode.mk "B" [] ["A"]]
            (fun _ _ => Except.ok "m") 1).1 nid "")
      else if dictHasKey (simStateAfter [SimNode.mk "A" [] ["B"], SimNode.mk "B" [] ["A"]]
          (fun _ _ => Except.ok "m") 1).1 (SimNode.mk "A" [] ["B"]).id then
        [dictGetD (simStateAfter [SimNode.mk "A" [] ["B"], SimNode.mk "B" [] ["A"]]
          (fun _ _ => Except.ok "m") 1).1 (SimNode.mk "A" [] ["B"]).id ""]
      else [SIMULATION_NEWS_SPARK]) :=
  round_inputs_from_active_neighbors
    [SimNode.mk "A" [] ["B"], SimNode.mk "B" [] ["A"]]
    (fun _ _ => Except.ok "m") (by decide)
    (SimNode.mk "A" [] ["B"]) (by decide) (by decide) 1 (by decide) (by decide)

/-! ## C3: connected-component counting -/

theorem mem_undirected_view (edges : List (String × String)) (a b : String) :
    b ∈ undirected_view edges a ↔ edgeAdjacent edges a b := by
  unfold undirected_view edgeAdjacent
  rw [mem_dedupFirstSeen, List.mem_append]
  constructor
  · rintro (h | h)
    · rcases List.mem_map.mp h with ⟨e, he, heb⟩
      obtain ⟨hee, hea⟩ := List.mem_filter.mp he
      have h1 : e.1 = a := by simpa using hea
      have he2 : e = (a, b) := Prod.ext h1 heb
      rw [← he2]
      exact Or.inl hee
    · rcases List.mem_map.mp h with ⟨e, he, heb⟩
      obtain ⟨hee, hea⟩ := List.mem_filter.mp he
      have h1 : e.2 = a := by simpa using hea
      have he2 : e = (b, a) := Prod.ext heb h1
      rw [← he2]
      exact Or.inr hee
  · rintro (h | h)
    · exact Or.inl (List.mem_map.mpr ⟨(a, b), List.mem_filter.mpr ⟨h, by simp⟩, rfl⟩)
    · exact Or.inr (List.mem_map.mpr ⟨(b, a), List.mem_filter.mpr ⟨h, by simp⟩, rfl⟩)

theorem edgeAdjacent_symm (edges : List (String × String)) :
    Symmetric (edgeAdjacent edges) := fun _ _ h => Or.symm h

theorem connectedIn_symm (edges : List (String × String)) :
    Symmetric (connectedIn edges) :=
  Relation.ReflTransGen.symmetric (edgeAdjacent_symm edges)

theorem reach_uview_iff (edges : List (String × String)) (a b : String) :
    Relation.ReflTransGen (fun u v => v ∈ undirected_view edges u) a b ↔
      connectedIn edges a b := by
  unfold connectedIn
  constructor
  · exact Relation.ReflTransGen.mono
      (fun u v hv => (mem_undirected_view edges u v).mp hv)
  · exact Relation.ReflTransGen.mono
      (fun u v hv => (mem_undirected_view edges u v).mpr hv)

theorem dfsFuel_drop (univ : List String) (uN : String → List String)
    (c : String) (visited : List String) :
    ∀ _ : univ.Nodup, c ∈ univ → c ∉ visited →
    ((univ.filter (fun v => v ∉ visited)).map (fun v => 1 + (uN v).length)).sum =
      (1 + (uN c).length) +
      ((univ.filter (fun v => v ∉ (c :: visited))).map (fun v => 1 + (uN v).length)).sum := by
  induction univ with
  | nil => intro _ hc; cases hc
  | cons a t ih =>
    intro hnd hc hcv
    rcases List.mem_cons.mp hc with heq | hct
    · rw [heq] at hcv ⊢
      have hnotc : a ∉ t := (List.nodup_cons.mp hnd).1
      rw [List.filter_cons, List.filter_cons]
      rw [if_pos (by simpa using hcv), if_neg (by simp)]
      rw [List.map_cons, List.sum_cons]
      have hfil : t.filter (fun v => decide (v ∉ visited)) =
          t.filter (fun v => decide (v ∉ (a :: visited))) := by
        apply List.filter_congr
        intro x hx
        have hxc : x ≠ a := fun hc' => hnotc (hc' ▸ hx)
        simp [List.mem_cons, hxc]
      rw [hfil]
    · have hna : a ≠ c := fun h => (List.nodup_cons.mp hnd).1 (h ▸ hct)
      rw [List.filter_cons, List.filter_cons]
      by_cases hav : a ∈ visited
      · rw [if_neg (by simp [hav]), if_neg (by simp [List.mem_cons, hav])]
        exact ih (List.nodup_cons.mp hnd).2 hct hcv
      · rw [if_pos (by simp [hav]), if_pos (by simp [List.mem_cons, hna, hav])]
        rw [List.map_cons, List.sum_cons, List.map_cons, List.sum_cons]
        rw [ih (List.nodup_cons.mp hnd).2 hct hcv]
        omega

theorem dfsLoop_spec (uN : String → List String) (univ : List String)
    (hnd : univ.Nodup) (hUN : ∀ v w, w ∈ uN v → w ∈ univ) :
    ∀ fuel stack visited,
      (∀ x ∈ stack, x ∈ univ) →
      dfsFuel univ uN stack visited ≤ fuel →
      (∀ x ∈ visited, x ∈ dfsLoop uN fuel stack visited) ∧
      (∀ x ∈ dfsLoop uN fuel stack visited, x ∈ visited ∨
        ∃ s ∈ stack, Relation.ReflTransGen (fun u v => v ∈ uN u) s x) ∧
      (∀ s ∈ stack, s ∈ dfsLoop uN fuel stack visited) ∧
      (∀ u ∈ dfsLoop uN fuel stack visited, u ∉ visited →
        ∀ w ∈ uN u, w ∈ dfsLoop uN fuel stack visited) := by
  intro fuel
  induction fuel with
  | zero =>
    intro stack visited hsub hfuel
    have hstack : stack = [] := by
      have hlen : stack.length = 0 := by
        unfold dfsFuel at hfuel
        omega
      exact List.length_eq_zero.mp hlen
    subst hstack
    exact ⟨fun x hx => hx, fun x hx => Or.inl hx,
      fun s hs => absurd hs (List.not_mem_nil s),
      fun u hu hnv _ _ => absurd hu hnv⟩
  | succ fuel ih =>
    intro stack visited hsub hfuel
    cases stack with
    | nil =>
      exact ⟨fun x hx => hx, fun x hx => Or.inl hx,
        fun s hs => absurd hs (List.not_mem_nil s),
        fun u hu hnv _ _ => absurd hu hnv⟩
    | cons current rest =>
      by_cases hcv : current ∈ visited
      · have hred : dfsLoop uN (fuel + 1) (current :: rest) visited =
            dfsLoop uN fuel rest visited := by
          conv_lhs => unfold dfsLoop
          rw [if_pos hcv]
        have hfuel' : dfsFuel univ uN rest visited ≤ fuel := by
          unfold dfsFuel at hfuel ⊢
          rw [List.length_cons] at hfuel
          omega
        obtain ⟨h1, h2, h3, h4⟩ := ih rest visited
          (fun x hx => hsub x (List.mem_cons_of_mem _ hx)) hfuel'
        rw [hred]
        refine ⟨h1, ?_, ?_, h4⟩
        · intro x hx
          rcases h2 x hx with h | ⟨s, hs, hr⟩
          · exact Or.inl h
          · exact Or.inr ⟨s, List.mem_cons_of_mem _ hs, hr⟩
        · intro s hs
          rcases List.mem_cons.mp hs with heq | hs'
          · rw [heq]
            exact h1 current hcv
          · exact h3 s hs'
      · have hred : dfsLoop uN (fuel + 1) (current :: rest) visited =
            dfsLoop uN fuel ((uN current).filter (fun n => n ∉ visited) ++ rest)
              (current :: visited) := by
          conv_lhs => unfold dfsLoop
          rw [if_neg hcv]
        have hcu : current ∈ univ := hsub current (List.mem_cons_self _ _)
        have hsum := dfsFuel_drop univ uN current visited hnd hcu hcv
        have hfuel' : dfsFuel univ uN
            ((uN current).filter (fun n => n ∉ visited) ++ rest) (current :: visited) ≤ fuel := by
          unfold dfsFuel at hfuel ⊢
          rw [List.length_cons] at hfuel
          rw [List.length_append]
          have hflen : ((uN current).filter (fun n => decide (n ∉ visited))).length ≤
              (uN current).length := List.length_filter_le _ _
          omega
        have hsub' : ∀ x ∈ (uN current).filter (fun n => n ∉ visited) ++ rest, x ∈ univ := by
          intro x hx
          rcases List.mem_append.mp hx with hx' | hx'
          · exact hUN current x (List.mem_filter.mp hx').1
          · exact hsub x (List.mem_cons_of_mem _ hx')
        obtain ⟨h1, h2, h3, h4⟩ := ih _ _ hsub' hfuel'
        rw [hred]
        refine ⟨?_, ?_, ?_, ?_⟩
        · exact fun x hx => h1 x (List.mem_cons_of_mem _ hx)
        · intro x hx
          rcases h2 x hx with hx' | ⟨s, hs, hr⟩
          · rcases List.mem_cons.mp hx' with heq | hx''
            · exact Or.inr ⟨current, List.mem_cons_self _ _, heq ▸ Relation.ReflTransGen.refl⟩
            · exact Or.inl hx''
          · rcases List.mem_append.mp hs with hs' | hs'
            · exact Or.inr ⟨current, List.mem_cons_self _ _,
                Relation.ReflTransGen.trans
                  (Relation.ReflTransGen.single (List.mem_filter.mp hs').1) hr⟩
            · exact Or.inr ⟨s, List.mem_cons_of_mem _ hs', hr⟩
        · intro s hs
          rcases List.mem_cons.mp hs with heq | hs'
          · rw [heq]
            exact h1 current (List.mem_cons_self _ _)
          · exact h3 s (List.mem_append_right _ hs')
        · intro u hu hnv w hw
          by_cases huc : u = current
          · by_cases hwv : w ∈ visited
            · exact h1 w (List.mem_cons_of_mem _ hwv)
            · refine h3 w (List.mem_append_left _ (List.mem_filter.mpr ⟨?_, by simpa using hwv⟩))
              rw [← huc]
              exact hw
          · have hnv' : u ∉ current :: visited := by
              intro hcon
              rcases List.mem_cons.mp hcon with h | h
              · exact huc h
              · exact hnv h
            exact h4 u hu hnv' w hw

theorem runDfs_spec (univ : List String) (uN : String → List String)
    (hnd : univ.Nodup) (hUN : ∀ v w, w ∈ uN v → w ∈ univ)
    (a : String) (ha : a ∈ univ) (visited : List String)
    (hcl : ∀ u ∈ visited, ∀ w ∈ uN u, w ∈ visited) :
    (∀ x, x ∈ runDfs univ uN a visited ↔
      x ∈ visited ∨ Relation.ReflTransGen (fun u v => v ∈ uN u) a x) ∧
    (∀ u ∈ runDfs univ uN a visited, ∀ w ∈ uN u, w ∈ runDfs univ uN a visited) := by
  obtain ⟨h1, h2, h3, h4⟩ := dfsLoop_spec uN univ hnd hUN
    (dfsFuel univ uN [a] visited) [a] visited
    (fun x hx => by rw [List.mem_singleton.mp hx]; exact ha) (le_refl _)
  have hclosed : ∀ u ∈ runDfs univ uN a visited, ∀ w ∈ uN u,
      w ∈ runDfs univ uN a visited := by
    intro u hu w hw
    by_cases huv : u ∈ visited
    · exact h1 w (hcl u huv w hw)
    · exact h4 u hu huv w hw
  refine ⟨fun x => ⟨?_, ?_⟩, hclosed⟩
  · intro hx
    rcases h2 x hx with h | ⟨s, hs, hr⟩
    · exact Or.inl h
    · rw [List.mem_singleton.mp hs] at hr
      exact Or.inr hr
  · rintro (hx | hx)
    · exact h1 x hx
    · induction hx with
      | refl => exact h3 a (List.mem_singleton_self a)
      | tail hpre hstep ih => exact hclosed _ ih _ hstep

theorem componentsLoop_spec (univ : List String) (uN : String → List String)
    (hnd : univ.Nodup) (hUN : ∀ v w, w ∈ uN v → w ∈ univ) :
    ∀ Q : List String, (∀ q ∈ Q, q ∈ univ) →
    ∀ (acc : Nat × List String) (reps : List String),
      reps.Nodup → reps.length = acc.1 → (∀ r ∈ reps, r ∈ univ) →
      reps.Pairwise (fun x y => ¬ Relation.ReflTransGen (fun u v => v ∈ uN u) x y) →
      (∀ x, x ∈ acc.2 ↔ ∃ r ∈ reps, Relation.ReflTransGen (fun u v => v ∈ uN u) r x) →
      (∀ u ∈ acc.2, ∀ w ∈ uN u, w ∈ acc.2) →
      ∃ reps' : List String,
        (∀ r ∈ reps, r ∈ reps') ∧
        reps'.Nodup ∧
        reps'.length = (Q.foldl
          (fun (acc : Nat × List String) a =>
            if a ∈ acc.2 then acc else (acc.1 + 1, runDfs univ uN a acc.2)) acc).1 ∧
        (∀ r ∈ reps', r ∈ univ) ∧
        reps'.Pairwise (fun x y => ¬ Relation.ReflTransGen (fun u v => v ∈ uN u) x y) ∧
        (∀ x, x ∈ (Q.foldl
          (fun (acc : Nat × List String) a =>
            if a ∈ acc.2 then acc else (acc.1 + 1, runDfs univ uN a acc.2)) acc).2 ↔
          ∃ r ∈ reps', Relation.ReflTransGen (fun u v => v ∈ uN u) r x) ∧
        (∀ q ∈ Q, q ∈ (Q.foldl
          (fun (acc : Nat × List String) a =>
            if a ∈ acc.2 then acc else (acc.1 + 1, runDfs univ uN a acc.2)) acc).2) := by
  intro Q
  induction Q with
  | nil =>
    intro _ acc reps hrn hrl hru hrp hiff hclo
    exact ⟨reps, fun r hr => hr, hrn, hrl, hru, hrp, hiff,
      fun q hq => absurd hq (List.not_mem_nil q)⟩
  | cons a t ih =>
    intro hQ acc reps hrn hrl hru hrp hiff hclo
    rw [List.foldl_cons]
    by_cases hav : a ∈ acc.2
    · rw [if_pos hav]
      obtain ⟨reps', hsub, hn', hl', hu', hp', hiff', hcov'⟩ :=
        ih (fun q hq => hQ q (List.mem_cons_of_mem _ hq)) acc reps hrn hrl hru hrp hiff hclo
      refine ⟨reps', hsub, hn', hl', hu', hp', hiff', ?_⟩
      intro q hq
      rcases List.mem_cons.mp hq with heq | hq'
      · rcases (hiff a).mp hav with ⟨r, hr, hra⟩
        rw [heq]
        exact (hiff' a).mpr ⟨r, hsub r hr, hra⟩
      · exact hcov' q hq'
    · rw [if_neg hav]
      have haU : a ∈ univ := hQ a (List.mem_cons_self _ _)
      obtain ⟨hdfs, hdfscl⟩ := runDfs_spec univ uN hnd hUN a haU acc.2 hclo
      have hanr : a ∉ reps := by
        intro hc
        exact hav ((hiff a).mpr ⟨a, hc, Relation.ReflTransGen.refl⟩)
      have hnotconn : ∀ r ∈ reps, ¬ Relation.ReflTransGen (fun u v => v ∈ uN u) r a := by
        intro r hr hc
        exact hav ((hiff a).mpr ⟨r, hr, hc⟩)
      have hrn2 : (reps ++ [a]).Nodup := by
        rw [List.nodup_append]
        exact ⟨hrn, List.nodup_singleton _, fun x hx hx1 =>
          hanr (by rwa [List.mem_singleton.mp hx1] at hx)⟩
      have hrp2 : (reps ++ [a]).Pairwise
          (fun x y => ¬ Relation.ReflTransGen (fun u v => v ∈ uN u) x y) := by
        rw [List.pairwise_append]
        refine ⟨hrp, List.pairwise_singleton _ _, ?_⟩
        intro x hx y hy
        rw [List.mem_singleton.mp hy]
        exact hnotconn x hx
      have hiff2 : ∀ x, x ∈ runDfs univ uN a acc.2 ↔
          ∃ r ∈ reps ++ [a], Relation.ReflTransGen (fun u v => v ∈ uN u) r x := by
        intro x
        rw [hdfs x, hiff x]
        constructor
        · rintro (⟨r, hr, hrx⟩ | hax)
          · exact ⟨r, List.mem_append_left _ hr, hrx⟩
          · exact ⟨a, List.mem_append_right _ (List.mem_singleton_self a), hax⟩
        · rintro ⟨r, hr, hrx⟩
          rcases List.mem_append.mp hr with hr' | hr'
          · exact Or.inl ⟨r, hr', hrx⟩
          · rw [List.mem_singleton.mp hr'] at hrx
            exact Or.inr hrx
      obtain ⟨reps', hsub, hn', hl', hu', hp', hiff', hcov'⟩ :=
        ih (fun q hq => hQ q (List.mem_cons_of_mem _ hq))
          (acc.1 + 1, runDfs univ uN a acc.2) (reps ++ [a]) hrn2
          (by rw [List.length_append, List.length_singleton, hrl])
          (fun r hr => by
            rcases List.mem_append.mp hr with hr' | hr'
            · exact hru r hr'
            · rw [List.mem_singleton.mp hr']; exact haU)
          hrp2 hiff2 hdfscl
      refine ⟨reps', fun r hr => hsub r (List.mem_append_left _ hr),
        hn', hl', hu', hp', hiff', ?_⟩
      intro q hq
      rcases List.mem_cons.mp hq with heq | hq'
      · rw [heq]
        exact (hiff' a).mpr ⟨a, hsub a (List.mem_append_right _ (List.mem_singleton_self a)),
          Relation.ReflTransGen.refl⟩
      · exact hcov' q hq'

theorem componentsCount_is_count (univ : List String) (edges : List (String × String))
    (hnd : univ.Nodup)
    (hE : ∀ v w, w ∈ undirected_view edges v → w ∈ univ) :
    isComponentCountOf univ edges (componentsCount univ (undirected_view edges)) := by
  obtain ⟨reps', _, hn', hl', hu', hp', hiff', hcov'⟩ :=
    componentsLoop_spec univ (undirected_view edges) hnd hE univ
      (fun q hq => hq) (0, []) []
      List.nodup_nil rfl (fun r hr => absurd hr (List.not_mem_nil r))
      List.Pairwise.nil
      (by intro x; simp)
      (fun u hu => absurd hu (List.not_mem_nil u))
  refine ⟨reps', hn', ?_, hu', ?_, ?_⟩
  · rw [hl']
    rfl
  · exact hp'.imp (fun h hc => h ((reach_uview_iff edges _ _).mpr hc))
  · intro u hu
    rcases (hiff' u).mp (hcov' u hu) with ⟨r, hr, hru⟩
    exact ⟨r, hr, (reach_uview_iff edges r u).mp hru⟩

theorem pairwise_not_connected_ne (edges : List (String × String)) (reps : List String)
    (hp : reps.Pairwise (fun x y => ¬ connectedIn edges x y)) :
    ∀ a ∈ reps, ∀ b ∈ reps, a ≠ b → ¬ connectedIn edges a b := by
  intro a ha b hb hne
  have hsym : Symmetric (fun x y => ¬ connectedIn edges x y) :=
    fun x y h hc => h (connectedIn_symm edges hc)
  exact List.Pairwise.forall hsym hp ha hb hne

theorem transversal_length_le (univ : List String) (edges : List (String × String))
    (reps1 reps2 : List String)
    (hn1 : reps1.Nodup) (hu1 : ∀ r ∈ reps1, r ∈ univ)
    (hp1 : reps1.Pairwise (fun x y => ¬ connectedIn edges x y))
    (hn2 : reps2.Nodup)
    (hcov2 : ∀ u ∈ univ, ∃ r ∈ reps2, connectedIn edges r u) :
    reps1.length ≤ reps2.length := by
  classical
  rw [← List.toFinset_card_of_nodup hn1, ← List.toFinset_card_of_nodup hn2]
  have hex : ∀ r ∈ reps1.toFinset, ∃ s ∈ reps2, connectedIn edges s r := by
    intro r hr
    exact hcov2 r (hu1 r (List.mem_toFinset.mp hr))
  apply Finset.card_le_card_of_injOn
    (fun r => if h : ∃ s ∈ reps2, connectedIn edges s r then h.choose else r)
  · intro r hr
    have h : ∃ s ∈ reps2, connectedIn edges s r := hex r hr
    rw [dif_pos h]
    exact List.mem_toFinset.mpr h.choose_spec.1
  · intro a ha b hb heq
    have haf : a ∈ reps1.toFinset := Finset.mem_coe.mp ha
    have hbf : b ∈ reps1.toFinset := Finset.mem_coe.mp hb
    have hA : ∃ s ∈ reps2, connectedIn edges s a := hex a haf
    have hB : ∃ s ∈ reps2, connectedIn edges s b := hex b hbf
    dsimp only at heq
    rw [dif_pos hA, dif_pos hB] at heq
    by_contra hne
    have hab : connectedIn edges a b :=
      Relation.ReflTransGen.trans
        (connectedIn_symm edges hA.choose_spec.2)
        (heq ▸ hB.choose_spec.2)
    exact pairwise_not_connected_ne edges reps1 hp1 a (List.mem_toFinset.mp haf)
      b (List.mem_toFinset.mp hbf) hne hab

theorem isComponentCountOf_unique (univ : List String) (edges : List (String × String))
    (m n : Nat) (hm : isComponentCountOf univ edges m)
    (hn : isComponentCountOf univ edges n) : m = n := by
  obtain ⟨r1, hn1, hl1, hu1, hp1, hc1⟩ := hm
  obtain ⟨r2, hn2, hl2, hu2, hp2, hc2⟩ := hn
  have h1 := transversal_length_le univ edges r1 r2 hn1 hu1 hp1 hn2 hc2
  have h2 := transversal_length_le univ edges r2 r1 hn2 hu2 hp2 hn1 hc1
  omega

theorem isComponentCountOf_one_iff (univ : List String) (edges : List (String × String))
    (n : Nat) (h : isComponentCountOf univ edges n) (hne : univ ≠ []) :
    (n = 1 ↔ ∀ a ∈ univ, ∀ b ∈ univ, connectedIn edges a b) := by
  obtain ⟨reps, hnd, hlen, hu, hp, hcov⟩ := h
  constructor
  · intro h1
    intro a ha b hb
    rw [h1] at hlen
    cases reps with
    | nil => exact absurd hlen (by simp)
    | cons r t =>
      cases t with
      | nil =>
        obtain ⟨ra, hra, hconna⟩ := hcov a ha
        obtain ⟨rb, hrb, hconnb⟩ := hcov b hb
        rw [List.mem_singleton.mp hra] at hconna
        rw [List.mem_singleton.mp hrb] at hconnb
        exact Relation.ReflTransGen.trans (connectedIn_symm edges hconna) hconnb
      | cons r2 t2 => exact absurd hlen (by simp)
  · intro hall
    cases hu' : univ with
    | nil => exact absurd hu' hne
    | cons u0 rest =>
      cases reps with
      | nil =>
        obtain ⟨r, hr, _⟩ := hcov u0 (by rw [hu']; exact List.mem_cons_self _ _)
        exact absurd hr (List.not_mem_nil r)
      | cons r t =>
        cases t with
        | nil => rw [← hlen]; rfl
        | cons r2 t2 =>
          have hner : r ≠ r2 := by
            intro hc
            have := (List.nodup_cons.mp hnd).1
            rw [hc] at this
            exact this (List.mem_cons_self _ _)
          have hnc : ¬ connectedIn edges r r2 :=
            (List.pairwise_cons.mp hp).1 r2 (List.mem_cons_self _ _)
          exact absurd (hall r (hu r (List.mem_cons_self _ _))
            r2 (hu r2 (List.mem_cons_of_mem _ (List.mem_cons_self _ _)))) hnc

theorem dedupeRowsLoop_ordered_nodup (rows : List CsvRecord) :
    ∀ byId ordered dups, byId.map Prod.fst = ordered → ordered.Nodup →
      (dedupeRowsLoop rows byId ordered dups).2.1.Nodup := by
  induction rows with
  | nil => intro byId ordered dups _ hnd; exact hnd
  | cons r rest ih =>
    intro byId ordered dups hmap hnd
    have hfind : (byId.find? (fun p => p.1 = dictGetD r "agent_id" "")).isSome = true ↔
        dictGetD r "agent_id" "" ∈ ordered := by
      rw [List.find?_isSome]
      subst hmap
      constructor
      · rintro ⟨p, hp, hpid⟩
        exact List.mem_map.mpr ⟨p, hp, by simpa using hpid⟩
      · intro hx
        rcases List.mem_map.mp hx with ⟨p, hp, hpid⟩
        exact ⟨p, hp, by simpa using hpid⟩
    unfold dedupeRowsLoop
    by_cases hmem : dictGetD r "agent_id" "" ∈ ordered
    · rw [if_pos (hfind.mpr hmem)]
      exact ih byId ordered _ hmap hnd
    · rw [if_neg (by rw [hfind]; exact hmem)]
      refine ih _ _ dups (by simp [hmap]) ?_
      rw [List.nodup_append]
      exact ⟨hnd, List.nodup_singleton _, fun x hx hx1 =>
        hmem (by rwa [List.mem_singleton.mp hx1] at hx)⟩

theorem orderedIdsOf_nodup (rows : List CsvRecord) : (orderedIdsOf rows).Nodup :=
  dedupeRowsLoop_ordered_nodup rows [] [] [] rfl List.nodup_nil

theorem dedupeRowsLoop_ordered_mono (rows : List CsvRecord) :
    ∀ byId ordered dups, ∀ x ∈ ordered, x ∈ (dedupeRowsLoop rows byId ordered dups).2.1 := by
  induction rows with
  | nil => intro byId ordered dups x hx; exact hx
  | cons r rest ih =>
    intro byId ordered dups x hx
    simp only [dedupeRowsLoop]
    split
    · exact ih byId ordered _ x hx
    · exact ih _ _ dups x (List.mem_append_left _ hx)

theorem orderedIdsOf_ne_nil (r : CsvRecord) (rest : List CsvRecord) :
    orderedIdsOf (r :: rest) ≠ [] := by
  intro hc
  have hx : dictGetD r "agent_id" "" ∈ orderedIdsOf (r :: rest) := by
    unfold orderedIdsOf dedupeRowsLoop
    rw [if_neg (by simp)]
    exact dedupeRowsLoop_ordered_mono rest _ _ _ _ (List.mem_singleton_self _)
  rw [hc] at hx
  exact List.not_mem_nil _ hx

theorem buildStOf_edges_in_ids (directed : Bool) (rows : List CsvRecord)
    (e : String × String) (he : e ∈ (buildStOf directed rows).edges) :
    e.1 ∈ orderedIdsOf rows ∧ e.2 ∈ orderedIdsOf rows := by
  rcases (buildStOf_edges_mem directed rows e).mp he with
    ⟨src, hsrc, tgt, _, _, htgt, hee⟩
  cases directed with
  | true =>
    simp only [if_true] at hee
    rw [hee]
    exact ⟨hsrc, htgt⟩
  | false =>
    simp only [Bool.false_eq_true, if_false] at hee
    rcases sortPair_cases src tgt with h | h <;> rw [h] at hee <;> rw [hee]
    · exact ⟨hsrc, htgt⟩
    · exact ⟨htgt, hsrc⟩

theorem edgeAdjacent_buildStOf_iff (directed : Bool) (rows : List CsvRecord)
    (a b : String) :
    edgeAdjacent (buildStOf directed rows).edges a b ↔
      (a ≠ b ∧ a ∈ orderedIdsOf rows ∧ b ∈ orderedIdsOf rows ∧
        (b ∈ declMapOf rows a ∨ a ∈ declMapOf rows b)) := by
  cases directed with
  | false =>
    constructor
    · intro h
      have hsp : sortPair a b ∈ (buildStOf false rows).edges := by
        rcases h with h | h
        · have := buildStOf_und_edges_shape rows (a, b) h
          rwa [this]
        · have := buildStOf_und_edges_shape rows (b, a) h
          rw [sortPair_comm]
          rwa [this]
      exact (buildStOf_und_mem_sortPair rows a b).mp hsp
    · intro h
      have hsp := (buildStOf_und_mem_sortPair rows a b).mpr h
      rcases sortPair_cases a b with hc | hc <;> rw [hc] at hsp
      · exact Or.inl hsp
      · exact Or.inr hsp
  | true =>
    constructor
    · rintro (h | h)
      · rcases (buildStOf_edges_mem true rows (a, b)).mp h with
          ⟨src, hsrc, tgt, htd, hne, htgt, hee⟩
        simp only [if_true, Prod.mk.injEq] at hee
        obtain ⟨h1, h2⟩ := hee
        rw [h1, h2]
        exact ⟨fun hc => hne hc.symm, hsrc, htgt, Or.inl htd⟩
      · rcases (buildStOf_edges_mem true rows (b, a)).mp h with
          ⟨src, hsrc, tgt, htd, hne, htgt, hee⟩
        simp only [if_true, Prod.mk.injEq] at hee
        obtain ⟨h1, h2⟩ := hee
        rw [h1, h2]
        exact ⟨hne, htgt, hsrc, Or.inr htd⟩
    · rintro ⟨hne, ha, hb, hd | hd⟩
      · exact Or.inl ((buildStOf_edges_mem true rows (a, b)).mpr
          ⟨a, ha, b, hd, fun hc => hne hc.symm, hb, by simp⟩)
      · exact Or.inr ((buildStOf_edges_mem true rows (b, a)).mpr
          ⟨b, hb, a, hd, hne, ha, by simp⟩)

theorem connectedIn_congr_adj (E1 E2 : List (String × String))
    (h : ∀ a b, edgeAdjacent E1 a b ↔ edgeAdjacent E2 a b) (a b : String) :
    connectedIn E1 a b ↔ connectedIn E2 a b := by
  unfold connectedIn
  constructor
  · exact Relation.ReflTransGen.mono (fun u v hv => (h u v).mp hv)
  · exact Relation.ReflTransGen.mono (fun u v hv => (h u v).mpr hv)

theorem isComponentCountOf_congr_adj (univ : List String) (E1 E2 : List (String × String))
    (h : ∀ a b, edgeAdjacent E1 a b ↔ edgeAdjacent E2 a b) (n : Nat)
    (hc : isComponentCountOf univ E1 n) : isComponentCountOf univ E2 n := by
  obtain ⟨reps, hnd, hlen, hu, hp, hcov⟩ := hc
  refine ⟨reps, hnd, hlen, hu, ?_, ?_⟩
  · exact hp.imp (fun hne hcon => hne ((connectedIn_congr_adj E1 E2 h _ _).mpr hcon))
  · intro u hu'
    obtain ⟨r, hr, hru⟩ := hcov u hu'
    exact ⟨r, hr, (connectedIn_congr_adj E1 E2 h r u).mp hru⟩

theorem edgePairs_graphFromRows_mem (directed : Bool) (rows : List CsvRecord)
    (p : String × String) :
    p ∈ edgePairs (graphFromRows directed rows) ↔
      p ∈ (buildStOf directed rows).edges := by
  unfold edgePairs
  rw [List.mem_map]
  constructor
  · rintro ⟨e, he, hep⟩
    rw [← hep]
    exact (graphFromRows_edge_pairs_mem directed rows e).mp he
  · intro hp
    exact ⟨GraphEdge.mk p.1 p.2,
      (graphFromRows_edge_pairs_mem directed rows (GraphEdge.mk p.1 p.2)).mpr hp, rfl⟩

theorem edgeAdjacent_congr_mem (E1 E2 : List (String × String))
    (h : ∀ p, p ∈ E1 ↔ p ∈ E2) (a b : String) :
    edgeAdjacent E1 a b ↔ edgeAdjacent E2 a b := by
  unfold edgeAdjacent
  rw [h (a, b), h (b, a)]

theorem graphFromRows_ccc (directed : Bool) (rows : List CsvRecord) :
    (graphFromRows directed rows).stats.connected_component_count =
      componentsCount (orderedIdsOf rows) (undirected_view (buildStOf directed rows).edges) := rfl

theorem parse_csv_rows_rows_ne (csv : CsvData) (f : List String) (rows : List CsvRecord)
    (h : parse_csv_rows csv = .ok (f, rows)) : rows ≠ [] := by
  unfold parse_csv_rows at h
  simp only [Bind.bind, Except.bind, Pure.pure, Except.pure, throw, throwThe,
    MonadExceptOf.throw] at h
  split at h
  · exact absurd h (by simp)
  · split at h
    · exact absurd h (by simp)
    · split at h
      · exact absurd h (by simp)
      · split at h
        · exact absurd h (by simp)
        · rename_i h3
          simp only [Except.ok.injEq, Prod.mk.injEq] at h
          rw [← h.2]
          exact h3

theorem graphFromRows_isComponentCount (directed : Bool) (rows : List CsvRecord) :
    isComponentCountOf (orderedIdsOf rows) ((buildStOf directed rows).edges)
      ((graphFromRows directed rows).stats.connected_component_count) := by
  rw [graphFromRows_ccc]
  apply componentsCount_is_count (orderedIdsOf rows) ((buildStOf directed rows).edges)
    (orderedIdsOf_nodup rows)
  intro v w hw
  rcases (mem_undirected_view _ v w).mp hw with h | h
  · exact (buildStOf_edges_in_ids directed rows (v, w) h).2
  · exact (buildStOf_edges_in_ids directed rows (w, v) h).1

theorem graphFromRows_edgePairs_isComponentCount (directed : Bool) (rows : List CsvRecord) :
    isComponentCountOf (orderedIdsOf rows) (edgePairs (graphFromRows directed rows))
      ((graphFromRows directed rows).stats.connected_component_count) := by
  apply isComponentCountOf_congr_adj (orderedIdsOf rows) ((buildStOf directed rows).edges)
  · exact edgeAdjacent_congr_mem _ _ (fun p => (edgePairs_graphFromRows_mem directed rows p).symm)
  · exact graphFromRows_isComponentCount directed rows

theorem graphFromRows_ccc_directed_inv (d1 d2 : Bool) (rows : List CsvRecord) :
    (graphFromRows d1 rows).stats.connected_component_count =
      (graphFromRows d2 rows).stats.connected_component_count := by
  apply isComponentCountOf_unique (orderedIdsOf rows) ((buildStOf d2 rows).edges)
  · apply isComponentCountOf_congr_adj (orderedIdsOf rows) ((buildStOf d1 rows).edges)
    · intro a b
      rw [edgeAdjacent_buildStOf_iff d1, edgeAdjacent_buildStOf_iff d2]
    · exact graphFromRows_isComponentCount d1 rows
  · exact graphFromRows_isComponentCount d2 rows

/-! ## C3: connected component count -/

/-- C3: in every successfully built graph, stats.connected_component_count
is a number of connected components of the undirected view of the final
edge set over the node ids (witnessed by a duplicate-free transversal of
the components, and unique as such), it is the same whether the build was
directed or undirected, and it equals 1 exactly when every node is
reachable from every other node along edges with direction ignored. -/
theorem connected_component_count_correct (csv : CsvData) (directed : Bool)
    (g : GraphBuildResponse) (h : build_social_graph csv directed = .ok g) :
    isComponentCountOf (nodeIds g) (edgePairs g) g.stats.connected_component_count ∧
    (∀ n, isComponentCountOf (nodeIds g) (edgePairs g) n →
      n = g.stats.connected_component_count) ∧
    (∀ (directed2 : Bool) (g2 : GraphBuildResponse),
      build_social_graph csv directed2 = .ok g2 →
      g2.stats.connected_component_count = g.stats.connected_component_count) ∧
    (g.stats.connected_component_count = 1 ↔
      ∀ a ∈ nodeIds g, ∀ b ∈ nodeIds g, connectedIn (edgePairs g) a b) := by
  obtain ⟨f, rows, hparse, hdup, hg⟩ := build_social_graph_ok_inv csv directed g h
  subst hg
  rw [nodeIds_graphFromRows]
  have hcount := graphFromRows_edgePairs_isComponentCount directed rows
  have hune : orderedIdsOf rows ≠ [] := by
    have hrne := parse_csv_rows_rows_ne csv f rows hparse
    cases rows with
    | nil => exact absurd rfl hrne
    | cons r rest => exact orderedIdsOf_ne_nil r rest
  refine ⟨hcount, ?_, ?_, ?_⟩
  · intro n hn
    exact isComponentCountOf_unique (orderedIdsOf rows) _ n _ hn hcount
  · intro d2 g2 h2
    obtain ⟨f2, rows2, hparse2, _, hg2⟩ := build_social_graph_ok_inv csv d2 g2 h2
    rw [hparse] at hparse2
    have hpr : f = f2 ∧ rows = rows2 := by
      have := Except.ok.inj hparse2
      exact ⟨congrArg Prod.fst this, congrArg Prod.snd this⟩
    rw [hg2, ← hpr.2]
    exact graphFromRows_ccc_directed_inv d2 directed rows
  · exact isComponentCountOf_one_iff (orderedIdsOf rows) _ _ hcount hune

theorem connected_component_count_correct_witness :
    build_social_graph
      ⟨["agent_id", "connections", "system_prompt"],
       [[("agent_id", "A"), ("connections", "B"), ("system_prompt", "x")],
        [("agent_id", "B"), ("connections", ""), ("system_prompt", "y")]]⟩ false =
      .ok (graphFromRows false
        [[("agent_id", "A"), ("connections", "B"), ("system_prompt", "x")],
         [("agent_id", "B"), ("connections", ""), ("system_prompt", "y")]]) ∧
    ((graphFromRows false
        [[("agent_id", "A"), ("connections", "B"), ("system_prompt", "x")],
         [("agent_id", "B"), ("connections", ""), ("system_prompt", "y")]]).stats.connected_component_count = 1 ↔
      ∀ a ∈ nodeIds (graphFromRows false
        [[("agent_id", "A"), ("connections", "B"), ("system_prompt", "x")],
         [("agent_id", "B"), ("connections", ""), ("system_prompt", "y")]]),
      ∀ b ∈ nodeIds (graphFromRows false
        [[("agent_id", "A"), ("connections", "B"), ("system_prompt", "x")],
         [("agent_id", "B"), ("connections", ""), ("system_prompt", "y")]]),
        connectedIn (edgePairs (graphFromRows false
          [[("agent_id", "A"), ("connections", "B"), ("system_prompt", "x")],
           [("agent_id", "B"), ("connections", ""), ("system_prompt", "y")]])) a b) :=
  ⟨by rfl,
   (connected_component_count_correct
     ⟨["agent_id", "connections", "system_prompt"],
      [[("agent_id", "A"), ("connections", "B"), ("system_prompt", "x")],
       [("agent_id", "B"), ("connections", ""), ("system_prompt", "y")]]⟩ false
     (graphFromRows false
       [[("agent_id", "A"), ("connections", "B"), ("system_prompt", "x")],
        [("agent_id", "B"), ("connections", ""), ("system_prompt", "y")]])
     (by rfl)).2.2.2⟩
